import Mathlib

/-!
Verification of the deterministic sequencing core of the tvmagick splicer.

The Python source is shallowly embedded as executable Lean definitions:

* Machine paths are modelled by the inductive type `MPath`, one constructor per
  naming template the pipeline uses (the working-directory prefix and the
  numeric formatting of the templates are process-environmental and carry no
  sequencing information).
* Python's `random.Random` is modelled by `Rng`, an abstract deterministic
  generator: a fixed stream of naturals plus a position; each call to
  `randint` consumes exactly one stream element and returns a value inside the
  requested interval.  All claims quantify over the stream, so no property
  depends on the concrete distribution of the Mersenne twister.
* `float` luma arithmetic is modelled over `ℚ`; the claims under verification
  are about exact formulas and control flow, not rounding.
* Calls into the external media tool (ffmpeg/ffprobe) are oracles: total
  functions fixed for a run (`Option` encodes a failing call).
* Thread pools are modelled by an adversarial completion order: a family of
  reindexing functions (`OrdF`); a valid one permutes `List.range n` for every
  job count `n`.  Dictionaries that are only ever read through lookups are
  modelled as functions `MPath → Option β` built by left folds of keyed
  updates, exactly mirroring the Python insertion order.
-/

namespace TVMagick

/-- Abstract deterministic random generator: a stream of naturals and a cursor.
Each draw consumes one stream element. -/
structure Rng where
  stream : Nat → Nat
  idx : Nat

/-- One raw draw. -/
def Rng.next (r : Rng) : Nat × Rng :=
  (r.stream r.idx, ⟨r.stream, r.idx + 1⟩)

/-- Model of `random.Random.randint(lo, hi)`: one draw, result in `[lo, hi]`
whenever `lo ≤ hi`. -/
def Rng.randint (r : Rng) (lo hi : Nat) : Nat × Rng :=
  let v := r.stream r.idx
  (lo + v % (hi + 1 - lo), ⟨r.stream, r.idx + 1⟩)

/-- Paths manufactured by the pipeline, one constructor per naming template of
the source (`norm_{i}.mp4`, `v{i}/chunk_{j}.mp4`, `img_segment_{i}.mp4`,
`buffer_gray.mp4`, `luma_normalized/lnorm_{i}.mp4`); `src`/`other` stand for
externally supplied path strings. -/
inductive MPath where
  | src : Nat → MPath
  | norm : Nat → MPath
  | chunk : Nat → Nat → MPath
  | img : Nat → MPath
  | buffer : MPath
  | lnorm : Nat → MPath
  | other : Nat → MPath
deriving DecidableEq

instance : Inhabited MPath := ⟨MPath.buffer⟩

/-- The sequencing-relevant fields of `SplicerConfig` (core/config.py).  Codec
and resolution fields are opaque to the sequencing engine and omitted; floats
are modelled as rationals. -/
structure SplicerConfig where
  chunk_frames_min : Nat := 3
  chunk_frames_max : Nat := 5
  image_frames_min : Nat := 3
  image_frames_max : Nat := 8
  antistrobe_enabled : Bool := true
  antistrobe_buffer_frames : Nat := 1
  antistrobe_luma_strength : ℚ := 1/2
  antistrobe_delta_threshold : ℚ := 80
deriving DecidableEq

/-! ### Probe metadata (core/probe.py) -/

/-- Python's `round`: round half to even (banker's rounding), on exact
rationals. -/
def pyRound (q : ℚ) : ℤ :=
  let f := ⌊q⌋
  let frac := q - (f : ℚ)
  if frac < 1/2 then f
  else if (1:ℚ)/2 < frac then f + 1
  else if f % 2 = 0 then f else f + 1

/-- `_get_frame_count` (core/probe.py): `nb` is the container's `nb_frames`
field when present and parseable (`none` models absent, `"N/A"`, or an
unparseable string, all of which fall through to the estimate in the source). -/
def getFrameCount (nb : Option ℤ) (duration fps : ℚ) : ℤ :=
  match nb with
  | some n => n
  | none =>
    if 0 < duration ∧ 0 < fps then max 1 (pyRound (duration * fps)) else 0

/-! ### Chunker (core/chunk.py) -/

/-- `ChunkInfo` (core/chunk.py). -/
structure ChunkInfo where
  source_file : MPath
  start_frame : Nat
  frame_count : Nat
  chunk_path : MPath
  chunk_index : Nat
deriving DecidableEq

/-- Loop body of `chunk_video` (core/chunk.py lines 50-82), instrumented to
record the raw drawn duration next to every emitted descriptor.  The source's
`while` loop advances by at least one frame per iteration whenever
`chunk_frames_min ≥ 1` (it does not terminate otherwise), so fuel
`total + 1` reproduces it exactly in that regime. -/
def chunkGo (pathOf : Nat → MPath) (src : MPath) (cfg : SplicerConfig)
    (total : Nat) : Nat → Nat → Nat → Rng → List (ChunkInfo × Nat) × Rng
  | 0, _, _, r => ([], r)
  | fuel + 1, cur, idx, r =>
    if cur < total then
      -- duration = rng.randint(chunk_frames_min, chunk_frames_max)
      let dr := r.randint cfg.chunk_frames_min cfg.chunk_frames_max
      -- remaining = total_frames - current_frame; break when below the minimum
      if total - cur < cfg.chunk_frames_min then ([], dr.2)
      else
        -- duration = min(duration, remaining)
        let dur := min dr.1 (total - cur)
        let rest := chunkGo pathOf src cfg total fuel (cur + dur) (idx + 1) dr.2
        ((⟨src, cur, dur, pathOf idx, idx⟩, dr.1) :: rest.1, rest.2)
    else ([], r)

/-- `chunk_video`, instrumented: returns each descriptor paired with the raw
drawn duration, plus the generator state after the loop. -/
def chunkVideoAux (pathOf : Nat → MPath) (src : MPath) (total : Nat)
    (cfg : SplicerConfig) (r : Rng) (startIdx : Nat) :
    List (ChunkInfo × Nat) × Rng :=
  chunkGo pathOf src cfg total (total + 1) 0 startIdx r

/-- `chunk_video` (core/chunk.py): the emitted descriptors and final generator
state. -/
def chunkVideo (pathOf : Nat → MPath) (src : MPath) (total : Nat)
    (cfg : SplicerConfig) (r : Rng) (startIdx : Nat) : List ChunkInfo × Rng :=
  let a := chunkVideoAux pathOf src total cfg r startIdx
  (a.1.map Prod.fst, a.2)

/-- Frames consumed by a chunk list, measured from `cur`. -/
def chunksEnd (cur : Nat) (l : List (ChunkInfo × Nat)) : Nat :=
  cur + (l.map (fun e => e.1.frame_count)).sum

/-! ### Manifest records (core/manifest.py) -/

/-- `ImageEntry` (core/manifest.py).  As in the source, `source_file` holds the
rendered segment path that was inserted. -/
structure ImageEntry where
  source_file : MPath
  position : Nat
  duration_frames : Nat
deriving DecidableEq

/-- `LumaFlag` (core/manifest.py). -/
structure LumaFlag where
  position : Nat
  delta : ℚ
  threshold : ℚ
deriving DecidableEq

/-! ### Shared dictionary and thread-pool modelling -/

/-- One keyed write into a lookup-only dictionary. -/
def updFn {β : Type} (m : MPath → Option β) (k : MPath) (v : β) :
    MPath → Option β :=
  fun p => if p = k then some v else m p

/-- A Python dict built by inserting the pairs of `l` left to right (later
writes win), observed through lookups only. -/
def dictFold {β : Type} (l : List (MPath × β)) (c : MPath → Option β) :
    MPath → Option β :=
  l.foldl (fun m e => updFn m e.1 e.2) c

/-- Completion-order family for a worker pool: `o n k` is the index of the job
that finishes `k`-th among `n` submitted jobs. -/
def OrdF := Nat → Nat → Nat

/-- A completion order actually delivers each job exactly once. -/
def ValidOrd (o : OrdF) : Prop :=
  ∀ n, ((List.range n).map (o n)).Perm (List.range n)

/-- Jobs of `l` observed in completion order `o` (the order in which
`as_completed` yields them). -/
def collect {α : Type} (o : OrdF) (l : List α) (d : α) : List α :=
  (List.range l.length).map (fun k => l.getD (o l.length k) d)

/-- In-pool scheduling that happens to finish jobs in submission order. -/
def idOrd : OrdF := fun _ k => k

/-! ### Assembler (core/assemble.py) -/

/-- Swap two positions of a list (Python `x[i], x[j] = x[j], x[i]`). -/
def listSwap (l : List MPath) (i j : Nat) : List MPath :=
  (l.set i (l.getD j default)).set j (l.getD i default)

/-- Fisher–Yates loop of `random.shuffle`: Python iterates
`i = n-1, ..., 1`, draws `j` in `[0, i]` and swaps.  One draw per step of the
abstract generator. -/
def shuffleGo : Nat → List MPath → Rng → List MPath × Rng
  | 0, l, r => (l, r)
  | i + 1, l, r =>
    let dj := r.randint 0 (i + 1)
    shuffleGo i (listSwap l (i + 1) dj.1) dj.2

/-- `rng.shuffle` on a list of paths. -/
def rngShuffle (l : List MPath) (r : Rng) : List MPath × Rng :=
  shuffleGo (l.length - 1) l r

/-- `_prepare_images` (core/assemble.py): per image, draw a duration from
`[image_frames_min, image_frames_max]` and render `img_segment_{i}.mp4`
(rendering is external and assumed to succeed; a failure aborts the run in the
source). -/
def prepareImagesGo (cfg : SplicerConfig) :
    Nat → Nat → Rng → List (MPath × Nat) × Rng
  | _, 0, r => ([], r)
  | i, n + 1, r =>
    let dd := r.randint cfg.image_frames_min cfg.image_frames_max
    let rest := prepareImagesGo cfg (i + 1) n dd.2
    ((MPath.img i, dd.1) :: rest.1, rest.2)

/-- `_prepare_images` over an image count. -/
def prepareImages (cfg : SplicerConfig) (numImages : Nat) (r : Rng) :
    List (MPath × Nat) × Rng :=
  prepareImagesGo cfg 0 numImages r

/-- `_interleave_images` (core/assemble.py): insert each rendered image
segment at a position drawn uniformly from `[0, len(sequence)]`, recording a
manifest entry per insertion, in input order. -/
def interleaveImages : List (MPath × Nat) → List MPath → Rng →
    List MPath × List ImageEntry × Rng
  | [], seq, r => (seq, [], r)
  | e :: rest, seq, r =>
    let dp := r.randint 0 seq.length
    let seq1 := seq.insertIdx dp.1 e.1
    let res := interleaveImages rest seq1 dp.2
    (res.1, ⟨e.1, dp.1, e.2⟩ :: res.2.1, res.2.2)

/-- `_insert_buffers` (core/assemble.py): the buffer clip between every
adjacent pair. -/
def insertBuffers (sequence : List MPath) (bufferPath : MPath) : List MPath :=
  match sequence with
  | [] => []
  | x :: rest => x :: rest.flatMap (fun clip => [bufferPath, clip])

/-- `_probe_luma_parallel` (core/assemble.py): measure every not-yet-cached
path in parallel; a failing measurement (`none`) degrades to the neutral
default 128.0; results are written into the shared cache in completion
order. -/
def probeLumaInto (mlProbe : MPath → Option ℚ) (o : OrdF)
    (paths : List MPath) (cache : MPath → Option ℚ) : MPath → Option ℚ :=
  let toProbe := paths.filter (fun p => (cache p).isNone)
  dictFold (collect o (toProbe.map (fun p => (p, (mlProbe p).getD 128)))
    (default, 0)) cache

/-- `clamp` used by the brightness formula:
`max(-1.0, min(1.0, brightness))`. -/
def clamp (x : ℚ) : ℚ := max (-1) (min 1 x)

/-- Result record of `_luma_normalize`. -/
structure LumaNormOut where
  sequence : List MPath
  normPairs : List (MPath × MPath)
  cache : MPath → Option ℚ
  requests : List (MPath × ℚ)

/-- Distinct paths of the working sequence: `list(set(sequence))`.  The
source's set-iteration order is process-environmental (string hash seed); it
is modelled as first-occurrence order, fixed for a run. -/
def uniquePaths (seq : List MPath) : List MPath := seq.dedup

/-- Global mean of the probe phase over the distinct paths
(`sum(luma_cache[p] for p in unique_paths) / len(unique_paths)`; every
distinct path is cached at this point, so the lookup default is never
consulted). -/
def globalMeanOf (seq : List MPath) (cache : MPath → Option ℚ) : ℚ :=
  (((uniquePaths seq).map (fun p => (cache p).getD 0)).sum) /
    ((uniquePaths seq).length : ℚ)

/-- Encode jobs of `_luma_normalize`: distinct paths whose luma differs from
the global mean by at least 2.0, paired with
`delta = global_mean - clip_luma` (the cache lookup uses the source's
`.get(p, 128.0)` default). -/
def encodeJobsOf (seq : List MPath) (cache : MPath → Option ℚ) (mean : ℚ) :
    List (MPath × ℚ) :=
  (uniquePaths seq).filterMap (fun p =>
    let d := mean - (cache p).getD 128
    if 2 ≤ |d| then some (p, d) else none)

/-- Probe-phase cache of `_luma_normalize`: every distinct path of the
working sequence measured into an initially empty shared cache (the cache is
`{}` at the unique call site). -/
def lumaCache1 (seq : List MPath) (mlProbe : MPath → Option ℚ)
    (oProbe : OrdF) : MPath → Option ℚ :=
  probeLumaInto mlProbe oProbe (uniquePaths seq) (fun _ => none)

/-- Worker results of the parallel conditional-encode phase, one per job in
submission order: `(original, adjusted path if the re-encode succeeded,
new-luma estimate)`.  Job `i` writes `lnorm_{i}.mp4`; its estimate is
`old + delta*strength`. -/
def lumaResults (seq : List MPath) (cfg : SplicerConfig)
    (mlProbe : MPath → Option ℚ) (encOk : Nat → Bool) (oProbe : OrdF) :
    List (MPath × Option MPath × ℚ) :=
  let cache1 := lumaCache1 seq mlProbe oProbe
  let jobs := encodeJobsOf seq cache1 (globalMeanOf seq cache1)
  jobs.enum.map (fun e =>
    if encOk e.1 then
      (e.2.1, some (MPath.lnorm e.1),
        (cache1 e.2.1).getD 128 + e.2.2 * cfg.antistrobe_luma_strength)
    else (e.2.1, none, e.2.2))

/-- `as_completed` collection of the encode pool: results arrive in completion
order, failures are skipped. -/
def lumaCompleted (seq : List MPath) (cfg : SplicerConfig)
    (mlProbe : MPath → Option ℚ) (encOk : Nat → Bool) (oProbe oEnc : OrdF) :
    List (MPath × MPath × ℚ) :=
  (collect oEnc (lumaResults seq cfg mlProbe encOk oProbe)
      (default, none, 0)).filterMap
    (fun e => e.2.1.map (fun p2 => (e.1, p2, e.2.2)))

/-- `_luma_normalize` (core/assemble.py): probe phase, global mean, parallel
conditional encode, substitution.  `mlProbe` is the external mean-luma
measurement, `encOk i` tells whether the brightness re-encode of job `i`
succeeds, `oProbe`/`oEnc` are the completion orders of the two pools. -/
def lumaNormalize (seq : List MPath) (cfg : SplicerConfig)
    (mlProbe : MPath → Option ℚ) (encOk : Nat → Bool) (oProbe oEnc : OrdF) :
    LumaNormOut :=
  if cfg.antistrobe_luma_strength ≤ 0 then ⟨seq, [], fun _ => none, []⟩
  -- `if not luma_cache: return`; with an initially empty cache this is
  -- exactly the empty-sequence case
  else if (uniquePaths seq).isEmpty then
    ⟨seq, [], lumaCache1 seq mlProbe oProbe, []⟩
  else
    -- norm_cache and luma_cache writes in completion order; sequence
    -- substitution through the resulting dict; brightness =
    -- clamp(-1, 1, (delta / 255) * strength), one request per job
    ⟨seq.map (fun p =>
        ((dictFold ((lumaCompleted seq cfg mlProbe encOk oProbe oEnc).map
          (fun e => (e.1, e.2.1))) (fun _ => none)) p).getD p),
      (lumaCompleted seq cfg mlProbe encOk oProbe oEnc).map
        (fun e => (e.1, e.2.1)),
      dictFold ((lumaCompleted seq cfg mlProbe encOk oProbe oEnc).map
        (fun e => (e.2.1, e.2.2))) (lumaCache1 seq mlProbe oProbe),
      (encodeJobsOf seq (lumaCache1 seq mlProbe oProbe)
        (globalMeanOf seq (lumaCache1 seq mlProbe oProbe))).map
        (fun e => (e.1, clamp (e.2 / 255 * cfg.antistrobe_luma_strength)))⟩

/-- `_count_expected_frames` (core/assemble.py): metadata-only sum over the
sequence; `probeFB` is the last-resort probe, whose failure contributes
zero. -/
def countExpectedFrames (seq : List MPath)
    (chunkMap imageMap normMap : MPath → Option Nat) (bufferPath : Option MPath)
    (cfg : SplicerConfig) (probeFB : MPath → Option Nat) : Nat :=
  seq.foldl (fun total p =>
    if bufferPath = some p then total + cfg.antistrobe_buffer_frames
    else match chunkMap p with
      | some n => total + n
      | none => match imageMap p with
        | some n => total + n
        | none => match normMap p with
          | some n => total + n
          | none => total + (probeFB p).getD 0) 0

/-- Per-entry frame contribution as the spec words it (refinement target for
the reconciliation claim): buffer occurrences contribute the configured
buffer-frame count, chunks their recorded count, image segments their drawn
duration, adjusted variants their original's count, anything else its
fallback probe or zero. -/
def entryFramesSpec (chunkMap imageMap normMap : MPath → Option Nat)
    (bufferPath : Option MPath) (cfg : SplicerConfig)
    (probeFB : MPath → Option Nat) (p : MPath) : Nat :=
  if bufferPath = some p then cfg.antistrobe_buffer_frames
  else match chunkMap p with
    | some n => n
    | none => match imageMap p with
      | some n => n
      | none => match normMap p with
        | some n => n
        | none => (probeFB p).getD 0

/-- `_luma_delta_pass` (core/assemble.py): extends the shared cache with every
still-uncached path of the final sequence (neutral default on failure), then
flags every adjacent pair whose delta strictly exceeds the threshold.
Returns the extended cache and the flag records in position order. -/
def lumaDeltaRun (seq : List MPath) (cfg : SplicerConfig)
    (mlProbe : MPath → Option ℚ) (o : OrdF) (cache : MPath → Option ℚ) :
    (MPath → Option ℚ) × List LumaFlag :=
  let t := cfg.antistrobe_delta_threshold
  if t ≤ 0 then (cache, [])
  else
    let uncached := (seq.filter (fun p => (cache p).isNone)).dedup
    let cache1 := probeLumaInto mlProbe o uncached cache
    (cache1, (List.range (seq.length - 1)).filterMap (fun i =>
      let a := (cache1 (seq.getD i default)).getD 128
      let b := (cache1 (seq.getD (i + 1) default)).getD 128
      if t < |a - b| then some ⟨i, |a - b|, t⟩ else none))

/-! ### Full assembly driver (`assemble`, core/assemble.py) and the
concurrency coordinator (`main`, cli.py) -/

/-- External-collaborator behaviour, fixed for a run: the media tool is
deterministic per path/job, concurrency only reorders completions. -/
structure Oracles where
  /-- Does probe+normalize of input video `i` succeed (`_normalize_one`)? -/
  normalizeOk : Nat → Bool
  /-- Probed frame count of a normalized video (chunk phase happy path:
  a probe failure there crashes the batch in the source). -/
  frames : MPath → Nat
  /-- `random.Random(seed)`: the sub-generator built from a drawn seed. -/
  mkRng : Nat → Rng
  /-- `probe_mean_luma`; `none` is a failing measurement. -/
  mlProbe : MPath → Option ℚ
  /-- Does brightness re-encode job `i` succeed? -/
  encOk : Nat → Bool
  /-- Last-resort probe of `_count_expected_frames`; `none` is a failure. -/
  probeFB : MPath → Option Nat

/-- Completion orders of the five worker pools of one run, by phase tag:
0 = probe/normalize, 1 = chunk, 2 = luma probe, 3 = luma encode,
4 = delta-pass probe. -/
def Schedule := Nat → OrdF

/-- Every pool delivers each submitted job exactly once. -/
def ValidSchedule (S : Schedule) : Prop := ∀ t, ValidOrd (S t)

/-- The schedule in which every pool finishes jobs in submission order. -/
def idSchedule : Schedule := fun _ => idOrd

/-- Everything `assemble` computes that the claims observe. -/
structure AssembleRun where
  shuffled : List MPath
  imageSegments : List (MPath × Nat)
  imageEntries : List ImageEntry
  preNormSequence : List MPath
  sequence : List MPath
  requests : List (MPath × ℚ)
  normPairs : List (MPath × MPath)
  lumaCache : MPath → Option ℚ
  cacheFinal : MPath → Option ℚ
  expectedFrames : Nat
  lumaFlags : List LumaFlag

/-- Schedule-free front half of `assemble`: shuffle, image preparation and
interleaving, buffer insertion. -/
structure PreAssemble where
  shuffled : List MPath
  imageSegments : List (MPath × Nat)
  imageEntries : List ImageEntry
  seqBuf : List MPath

/-- `buffer_path` of `assemble`: the rendered gray clip, present only when
anti-strobe is on and the buffer-frame count positive. -/
def bufferPathOf (cfg : SplicerConfig) : Option MPath :=
  if cfg.antistrobe_enabled ∧ 0 < cfg.antistrobe_buffer_frames then
    some MPath.buffer
  else none

/-- Stages 1-3 of `assemble` (core/assemble.py lines 37-67): seeded shuffle,
image segment preparation, interleaving, buffer insertion. -/
def preAssemble (chunks : List ChunkInfo) (numImages : Nat)
    (cfg : SplicerConfig) (r : Rng) : PreAssemble :=
  let sh := rngShuffle (chunks.map (fun c => c.chunk_path)) r
  let pi := prepareImages cfg numImages sh.2
  let il := interleaveImages pi.1 sh.1 pi.2
  let seqBuf := match bufferPathOf cfg with
    | some b => insertBuffers il.1 b
    | none => il.1
  ⟨sh.1, pi.1, il.2.1, seqBuf⟩

/-- `chunk_frame_map` of `assemble`. -/
def chunkFrameMapOf (chunks : List ChunkInfo) : MPath → Option Nat :=
  dictFold (chunks.map (fun c => (c.chunk_path, c.frame_count)))
    (fun _ => none)

/-- Stage 4 of `assemble`: the optional luma normalization (the luma cache
stays empty when it is skipped). -/
def assembleLN (chunks : List ChunkInfo) (numImages : Nat)
    (cfg : SplicerConfig) (r : Rng) (O : Oracles) (S : Schedule) :
    LumaNormOut :=
  if cfg.antistrobe_enabled ∧ 0 < cfg.antistrobe_luma_strength then
    lumaNormalize (preAssemble chunks numImages cfg r).seqBuf cfg O.mlProbe
      O.encOk (S 2) (S 3)
  else ⟨(preAssemble chunks numImages cfg r).seqBuf, [], fun _ => none, []⟩

/-- `norm_frame_map` construction: each adjusted path resolved to its
original's frame count (unresolvable originals are skipped, as in the
source's if/elif). -/
def normFramePairs (chunkMap imageMap : MPath → Option Nat)
    (normPairs : List (MPath × MPath)) : List (MPath × Nat) :=
  normPairs.filterMap (fun pr =>
    match chunkMap pr.1 with
    | some n => some (pr.2, n)
    | none => match imageMap pr.1 with
      | some n => some (pr.2, n)
      | none => none)

/-- `assemble` (core/assemble.py): shuffle, image interleaving, buffer
insertion, optional luma normalization, expected-frame reconciliation and the
post-concat luma delta pass.  Concatenation itself, the output probe and the
checksum are external effects that produce no sequencing data. -/
def assembleRun (chunks : List ChunkInfo) (numImages : Nat)
    (cfg : SplicerConfig) (r : Rng) (O : Oracles) (S : Schedule) :
    AssembleRun :=
  let pre := preAssemble chunks numImages cfg r
  let ln := assembleLN chunks numImages cfg r O S
  let normFrameMap := dictFold (normFramePairs (chunkFrameMapOf chunks)
    (dictFold pre.imageSegments (fun _ => none)) ln.normPairs) (fun _ => none)
  let expected := countExpectedFrames ln.sequence (chunkFrameMapOf chunks)
    (dictFold pre.imageSegments (fun _ => none)) normFrameMap
    (bufferPathOf cfg) cfg O.probeFB
  let dp :=
    if cfg.antistrobe_enabled then
      lumaDeltaRun ln.sequence cfg O.mlProbe (S 4) ln.cache
    else (ln.cache, [])
  ⟨pre.shuffled, pre.imageSegments, pre.imageEntries, pre.seqBuf, ln.sequence,
    ln.requests, ln.normPairs, ln.cache, dp.1, expected, dp.2⟩

/-- Sort worker results by original submission index
(`results.sort(key=lambda r: r[0])`). -/
def sortByIdx {α : Type} (l : List (Nat × α)) : List (Nat × α) :=
  l.insertionSort (fun a b => a.1 ≤ b.1)

/-- Phase-1 result for input video `i` before collection: the normalized path
on success, `None` on a recorded skip. -/
def normResults (numVideos : Nat) (O : Oracles) : List (Option MPath) :=
  (List.range numVideos).map (fun i =>
    if O.normalizeOk i then some (MPath.norm i) else none)

/-- Phase-1 collection: gather in completion order, sort by submission index,
drop skipped videos. -/
def normalizedOf (numVideos : Nat) (O : Oracles) (o : OrdF) : List MPath :=
  (sortByIdx (collect o (normResults numVideos O).enum (0, none))).filterMap
    Prod.snd

/-- Sequential pre-dispatch seed draws, one per surviving normalized video
(`sub_seeds = [rng.randint(0, 2**31 - 1) for _ in normalized_videos]`). -/
def drawSeeds : Rng → Nat → List Nat × Rng
  | r, 0 => ([], r)
  | r, n + 1 =>
    let ds := r.randint 0 (2 ^ 31 - 1)
    let rest := drawSeeds ds.2 n
    (ds.1 :: rest.1, rest.2)

/-- Phase-2 job for normalized video number `i` (list position) with its
sub-seed: chunk into `v{i}/chunk_{j}.mp4` starting at index 0. -/
def chunkJobs (normalized : List MPath) (seeds : List Nat)
    (cfg : SplicerConfig) (O : Oracles) : List (List ChunkInfo) :=
  (normalized.zip seeds).enum.map (fun e =>
    (chunkVideo (fun j => MPath.chunk e.1 j) e.2.1 (O.frames e.2.1) cfg
      (O.mkRng e.2.2) 0).1)

/-- Phase-2 collection and re-indexing: sort per-video chunk lists by
submission index, concatenate, and reassign `chunk_index` sequentially. -/
def allChunksOf (jobs : List (List ChunkInfo)) (o : OrdF) : List ChunkInfo :=
  (((sortByIdx (collect o jobs.enum (0, []))).map Prod.snd).flatten).enum.map
    (fun e => { e.2 with chunk_index := e.1 })

/-- Decision data of one whole run, i.e. every manifest record other than the
output checksum and frame probe of the final file. -/
structure PipelineOut where
  subSeeds : List Nat
  chunkRecords : List ChunkInfo
  shuffled : List MPath
  imageEntries : List ImageEntry
  sequenceOrder : List MPath
  expectedFrames : Nat
  lumaFlags : List LumaFlag
deriving DecidableEq

/-- `main` (cli.py) phases 1-3 for a fixed input set: probe/normalize with a
bounded pool, sequential pre-dispatch sub-seed draws, parallel chunking
collected in submission order, manifest chunk records, and `assemble`. -/
def runPipeline (numVideos numImages : Nat) (cfg : SplicerConfig) (r0 : Rng)
    (O : Oracles) (S : Schedule) : PipelineOut :=
  let normalized := normalizedOf numVideos O (S 0)
  let seeds := drawSeeds r0 normalized.length
  let allChunks := allChunksOf (chunkJobs normalized seeds.1 cfg O) (S 1)
  let a := assembleRun allChunks numImages cfg seeds.2 O S
  ⟨seeds.1, allChunks, a.shuffled, a.imageEntries, a.sequence,
    a.expectedFrames, a.lumaFlags⟩

/-! ## General lemmas -/

lemma sublist_insertIdx {α : Type} (a : α) :
    ∀ (n : Nat) (l : List α), l.Sublist (l.insertIdx n a)
  | 0, l => by simp [List.sublist_cons_self a l]
  | _ + 1, [] => by simp
  | n + 1, x :: xs => by
    simpa using List.Sublist.cons₂ x (sublist_insertIdx a n xs)

lemma randint_le {r : Rng} {n : Nat} : (r.randint 0 n).1 ≤ n := by
  simp only [Rng.randint, Nat.zero_add, Nat.add_sub_cancel]
  exact Nat.lt_succ_iff.mp (Nat.mod_lt _ (Nat.succ_pos n))

lemma randint_bounds {r : Rng} {lo hi : Nat} (h : lo ≤ hi) :
    lo ≤ (r.randint lo hi).1 ∧ (r.randint lo hi).1 ≤ hi := by
  constructor
  · exact Nat.le_add_right lo _
  · have hspan : 0 < hi + 1 - lo := by omega
    have := Nat.mod_lt (r.stream r.idx) hspan
    simp only [Rng.randint]
    omega

lemma randint_idx {r : Rng} {lo hi : Nat} :
    (r.randint lo hi).2.idx = r.idx + 1 ∧ (r.randint lo hi).2.stream = r.stream :=
  ⟨rfl, rfl⟩

/-! ## C10 — image interleaving is order-preserving -/

/-- Claim C10: for every list of image segments, every chunk-path list and any
generator state, `_interleave_images` returns a sequence whose length is the
number of chunk paths plus the number of image segments, and which contains
the chunk paths as a subsequence in their pre-interleave relative order:
insertions never reorder or drop an existing entry. -/
theorem interleave_preserves_order (segs : List (MPath × Nat))
    (chunkPaths : List MPath) (r : Rng) :
    (interleaveImages segs chunkPaths r).1.length
        = chunkPaths.length + segs.length ∧
      chunkPaths.Sublist (interleaveImages segs chunkPaths r).1 := by
  induction segs generalizing chunkPaths r with
  | nil => simp [interleaveImages]
  | cons e rest ih =>
    have hpos : (r.randint 0 chunkPaths.length).1 ≤ chunkPaths.length :=
      randint_le
    have hlen : (chunkPaths.insertIdx (r.randint 0 chunkPaths.length).1
        e.1).length = chunkPaths.length + 1 :=
      List.length_insertIdx _ _ hpos
    have hrec := ih (chunkPaths.insertIdx (r.randint 0 chunkPaths.length).1 e.1)
      (r.randint 0 chunkPaths.length).2
    rw [hlen] at hrec
    refine ⟨?_, ?_⟩
    · exact hrec.1.trans (by simp only [List.length_cons]; omega)
    · exact ((sublist_insertIdx e.1 _ chunkPaths).trans hrec.2)

/-! ## C4 — probe frame-count rule -/

/-- Claim C4, counterexample: with no exact container count, duration 1 second
and fps 0 (a degenerate but probe-expressible stream), `_get_frame_count`
returns 0 even though the duration is positive, contradicting the claimed
lower bound of 1 (and the claimed value `round(duration*fps) = 0` cannot be
simultaneously `≥ 1` either). -/
theorem getFrameCount_cex :
    (0:ℚ) < 1 ∧ getFrameCount none 1 0 = 0 ∧ ¬ 1 ≤ getFrameCount none 1 0 := by
  refine ⟨by norm_num, ?_, ?_⟩ <;> simp [getFrameCount]

/-- Claim C4 (amended): the reported frame count equals the container's exact
count when provided; otherwise, when both duration and fps are positive it
equals `max 1 (round(duration*fps))` — hence is at least 1 — and when no
exact count is present and duration or fps is nonpositive it is 0. -/
theorem getFrameCount_spec (nb : Option ℤ) (duration fps : ℚ) :
    (∀ n, nb = some n → getFrameCount nb duration fps = n) ∧
      (nb = none → 0 < duration → 0 < fps →
        getFrameCount nb duration fps = max 1 (pyRound (duration * fps)) ∧
          1 ≤ getFrameCount nb duration fps) ∧
      (nb = none → (duration ≤ 0 ∨ fps ≤ 0) →
        getFrameCount nb duration fps = 0) := by
  refine ⟨?_, ?_, ?_⟩
  · intro n hn; subst hn; rfl
  · intro hn hd hf
    subst hn
    have : getFrameCount none duration fps = max 1 (pyRound (duration * fps)) := by
      simp [getFrameCount, hd, hf]
    exact ⟨this, this ▸ le_max_left _ _⟩
  · intro hn hdf
    subst hn
    have : ¬ (0 < duration ∧ 0 < fps) := by
      rcases hdf with h | h <;> intro hc <;> rcases hc with ⟨h1, h2⟩ <;> linarith
    simp [getFrameCount, this]

/-- Witness for C4's amended theorem at a concrete probed file: 10 seconds at
24 fps with no container count. -/
theorem getFrameCount_spec_witness :
    (0:ℚ) < 10 ∧ (0:ℚ) < 24 ∧
      (getFrameCount none 10 24 = max 1 (pyRound (10 * 24)) ∧
        1 ≤ getFrameCount none 10 24) :=
  ⟨by norm_num, by norm_num,
    (getFrameCount_spec none 10 24).2.1 rfl (by norm_num) (by norm_num)⟩

/-! ## Chunker lemmas -/

lemma chunkGo_stop (pathOf : Nat → MPath) (src : MPath) (cfg : SplicerConfig)
    (total fuel cur idx : Nat) (r : Rng) (h : total ≤ cur) :
    chunkGo pathOf src cfg total fuel cur idx r = ([], r) := by
  cases fuel with
  | zero => rfl
  | succ n => simp [chunkGo, Nat.not_lt.mpr h]

/-- Master invariant of the `chunk_video` loop, by induction on the fuel:
per-chunk bounds, truncation only at the tail, the terminal remainder below
the configured minimum, the exact number of generator draws, and the drawn
durations being consecutive generator outputs. -/
lemma chunkGo_spec (pathOf : Nat → MPath) (src : MPath) (cfg : SplicerConfig)
    (total : Nat) (h1 : 1 ≤ cfg.chunk_frames_min)
    (h2 : cfg.chunk_frames_min ≤ cfg.chunk_frames_max) :
    ∀ fuel cur idx r, total ≤ cur + fuel →
      (∀ e ∈ (chunkGo pathOf src cfg total fuel cur idx r).1,
          cfg.chunk_frames_min ≤ e.1.frame_count ∧
          e.1.frame_count ≤ cfg.chunk_frames_max ∧
          e.1.start_frame + e.1.frame_count ≤ total ∧
          cfg.chunk_frames_min ≤ e.2 ∧ e.2 ≤ cfg.chunk_frames_max ∧
          e.1.frame_count = min e.2 (total - e.1.start_frame)) ∧
      (∀ i (hi : i + 1 < (chunkGo pathOf src cfg total fuel cur idx r).1.length),
          ((chunkGo pathOf src cfg total fuel cur idx r).1.get
              ⟨i, Nat.lt_of_succ_lt hi⟩).1.frame_count
            = ((chunkGo pathOf src cfg total fuel cur idx r).1.get
              ⟨i, Nat.lt_of_succ_lt hi⟩).2) ∧
      total - chunksEnd cur (chunkGo pathOf src cfg total fuel cur idx r).1
          < cfg.chunk_frames_min ∧
      (chunkGo pathOf src cfg total fuel cur idx r).2.idx
          = r.idx + (chunkGo pathOf src cfg total fuel cur idx r).1.length
            + (if chunksEnd cur (chunkGo pathOf src cfg total fuel cur idx r).1
                  < total then 1 else 0) ∧
      ((chunkGo pathOf src cfg total fuel cur idx r).1.map (fun e => e.2))
          = (List.range (chunkGo pathOf src cfg total fuel cur idx r).1.length).map
            (fun i => cfg.chunk_frames_min
              + r.stream (r.idx + i)
                % (cfg.chunk_frames_max + 1 - cfg.chunk_frames_min)) := by
  intro fuel
  induction fuel with
  | zero =>
    intro cur idx r hf
    have hs : total ≤ cur := by omega
    refine ⟨by simp [chunkGo], by simp [chunkGo], ?_, ?_, by simp [chunkGo]⟩
    · simp only [chunkGo, chunksEnd]
      simp
      omega
    · simp only [chunkGo, chunksEnd]
      simp
      omega
  | succ n ih =>
    intro cur idx r hf
    by_cases hc : cur < total
    · by_cases hrem : total - cur < cfg.chunk_frames_min
      · refine ⟨by simp [chunkGo, hc, hrem], by simp [chunkGo, hc, hrem],
          ?_, ?_, by simp [chunkGo, hc, hrem]⟩
        · simp only [chunkGo, if_pos hc, if_pos hrem, chunksEnd]
          simp
          omega
        · simp only [chunkGo, if_pos hc, if_pos hrem, chunksEnd]
          simp [Rng.randint, hc]
      · -- a descriptor is emitted
        have hspan : 0 < cfg.chunk_frames_max + 1 - cfg.chunk_frames_min := by
          omega
        have hd := randint_bounds (r := r) h2
        set d := (r.randint cfg.chunk_frames_min cfg.chunk_frames_max).1 with hd_def
        set r1 := (r.randint cfg.chunk_frames_min cfg.chunk_frames_max).2 with hr1_def
        have hdur_lo : cfg.chunk_frames_min ≤ min d (total - cur) :=
          le_min hd.1 (by omega)
        have hdur_hi : min d (total - cur) ≤ cfg.chunk_frames_max :=
          (min_le_left _ _).trans hd.2
        have hdur_rem : min d (total - cur) ≤ total - cur := min_le_right _ _
        have hdur1 : 1 ≤ min d (total - cur) := by omega
        have hnext : total ≤ (cur + min d (total - cur)) + n := by omega
        obtain ⟨ha, hb, hcend, hidx, hmap⟩ :=
          ih (cur + min d (total - cur)) (idx + 1) r1 hnext
        have hunfold : chunkGo pathOf src cfg total (n + 1) cur idx r
            = ((⟨src, cur, min d (total - cur), pathOf idx, idx⟩, d)
                :: (chunkGo pathOf src cfg total n
                    (cur + min d (total - cur)) (idx + 1) r1).1,
              (chunkGo pathOf src cfg total n
                  (cur + min d (total - cur)) (idx + 1) r1).2) := by
          simp only [chunkGo, if_pos hc, if_neg hrem]
        rw [hunfold]
        set rest := chunkGo pathOf src cfg total n
          (cur + min d (total - cur)) (idx + 1) r1 with hrest_def
        have hce : chunksEnd cur
            ((⟨src, cur, min d (total - cur), pathOf idx, idx⟩, d) :: rest.1)
            = chunksEnd (cur + min d (total - cur)) rest.1 := by
          simp [chunksEnd]
          omega
        refine ⟨?_, ?_, ?_, ?_, ?_⟩
        · intro e he
          rcases List.mem_cons.mp he with hhead | htail
          · subst hhead
            refine ⟨hdur_lo, hdur_hi, ?_, hd.1, hd.2, by simp⟩
            show cur + min d (total - cur) ≤ total
            omega
          · exact ha e htail
        · intro i hi
          match i with
          | 0 =>
            have hne : 0 < rest.1.length := by
              simpa using Nat.lt_of_succ_lt_succ hi
            have hdle : d ≤ total - cur := by
              by_contra hdt
              have hmin : min d (total - cur) = total - cur :=
                min_eq_right (by omega)
              have : rest = ([], r1) := by
                rw [hrest_def]
                exact chunkGo_stop _ _ _ _ _ _ _ _ (by omega)
              rw [this] at hne
              simp at hne
            simp [min_eq_left hdle]
          | Nat.succ j =>
            have hj : j + 1 < rest.1.length := by
              simpa using Nat.lt_of_succ_lt_succ hi
            simpa using hb j hj
        · rw [hce]; exact hcend
        · rw [hce]
          have hidx1 : r1.idx = r.idx + 1 := rfl
          simp only [List.length_cons]
          omega
        · simp only [List.map_cons, List.length_cons, List.range_succ_eq_map,
            List.map_map]
          have hhead : d = cfg.chunk_frames_min
              + r.stream (r.idx + 0)
                % (cfg.chunk_frames_max + 1 - cfg.chunk_frames_min) := by
            simp [hd_def, Rng.randint]
          refine List.cons_eq_cons.mpr ⟨hhead, ?_⟩
          rw [hmap]
          refine List.map_congr_left ?_
          intro i _
          have : r1.idx = r.idx + 1 := rfl
          have hstr : r1.stream = r.stream := rfl
          simp [Function.comp, this, hstr]
          ring_nf
    · have hs : total ≤ cur := by omega
      have hstop := chunkGo_stop pathOf src cfg total (n + 1) cur idx r hs
      rw [hstop]
      refine ⟨by simp, by simp, ?_, ?_, by simp⟩
      · simp [chunksEnd]
        omega
      · simp [chunksEnd]
        omega

/-! ## C2 — chunker RNG discipline -/

/-- Claim C2, counterexample: a 4-frame source with the default 3-5 frame
range and a zero stream emits one chunk (frames `[0, 3)`) but consumes two
draws — the loop draws again before discovering that only 1 frame remains and
breaking, so a draw occurs that corresponds to no emitted chunk. -/
theorem chunkVideo_draws_cex :
    ¬ ((chunkVideo (fun j => MPath.other j) (MPath.other 99) 4 {}
          ⟨fun _ => 0, 0⟩ 0).2.idx
        = (chunkVideo (fun j => MPath.other j) (MPath.other 99) 4 {}
          ⟨fun _ => 0, 0⟩ 0).1.length) := by
  decide

/-- Claim C2 (amended): for every source length, configuration with
`1 ≤ chunkFramesMin ≤ chunkFramesMax`, and generator state, `chunk_video`
consumes its draws sequentially, one per emitted chunk in submission order
with none skipped on clamp (the drawn durations are exactly the consecutive
generator outputs), plus exactly one extra discarded draw when a positive
remainder smaller than `chunkFramesMin` is left after the last emitted chunk
(that remainder is always below the minimum). -/
theorem chunkVideo_draw_discipline (pathOf : Nat → MPath) (src : MPath)
    (total : Nat) (cfg : SplicerConfig) (r : Rng) (startIdx : Nat)
    (h1 : 1 ≤ cfg.chunk_frames_min)
    (h2 : cfg.chunk_frames_min ≤ cfg.chunk_frames_max) :
    (chunkVideoAux pathOf src total cfg r startIdx).2.idx
        = r.idx + (chunkVideoAux pathOf src total cfg r startIdx).1.length
          + (if chunksEnd 0 (chunkVideoAux pathOf src total cfg r startIdx).1
                < total then 1 else 0) ∧
      total - chunksEnd 0 (chunkVideoAux pathOf src total cfg r startIdx).1
          < cfg.chunk_frames_min ∧
      ((chunkVideoAux pathOf src total cfg r startIdx).1.map (fun e => e.2))
          = (List.range
              (chunkVideoAux pathOf src total cfg r startIdx).1.length).map
            (fun i => cfg.chunk_frames_min
              + r.stream (r.idx + i)
                % (cfg.chunk_frames_max + 1 - cfg.chunk_frames_min)) := by
  obtain ⟨_, _, hrem, hidx, hmap⟩ :=
    chunkGo_spec pathOf src cfg total h1 h2 (total + 1) 0 startIdx r (by omega)
  exact ⟨hidx, hrem, hmap⟩

/-- Witness for C2's amended theorem: a 10-frame source, frame range 3-5,
identity stream — three chunks, three draws, no trailing draw. -/
theorem chunkVideo_draw_discipline_witness :
    1 ≤ ({} : SplicerConfig).chunk_frames_min ∧
      ({} : SplicerConfig).chunk_frames_min
        ≤ ({} : SplicerConfig).chunk_frames_max ∧
      ((chunkVideoAux (fun j => MPath.other j) (MPath.other 0) 10 {}
            ⟨fun i => i, 0⟩ 0).2.idx
          = 0 + (chunkVideoAux (fun j => MPath.other j) (MPath.other 0) 10 {}
              ⟨fun i => i, 0⟩ 0).1.length
            + (if chunksEnd 0 (chunkVideoAux (fun j => MPath.other j)
                  (MPath.other 0) 10 {} ⟨fun i => i, 0⟩ 0).1 < 10
               then 1 else 0) ∧
        10 - chunksEnd 0 (chunkVideoAux (fun j => MPath.other j)
            (MPath.other 0) 10 {} ⟨fun i => i, 0⟩ 0).1
          < ({} : SplicerConfig).chunk_frames_min ∧
        ((chunkVideoAux (fun j => MPath.other j) (MPath.other 0) 10 {}
            ⟨fun i => i, 0⟩ 0).1.map (fun e => e.2))
          = (List.range (chunkVideoAux (fun j => MPath.other j)
              (MPath.other 0) 10 {} ⟨fun i => i, 0⟩ 0).1.length).map
            (fun i => ({} : SplicerConfig).chunk_frames_min
              + i % (({} : SplicerConfig).chunk_frames_max + 1
                - ({} : SplicerConfig).chunk_frames_min))) := by
  refine ⟨by decide, by decide, ?_⟩
  have h := chunkVideo_draw_discipline (fun j => MPath.other j) (MPath.other 0)
    10 {} ⟨fun i => i, 0⟩ 0 (by decide) (by decide)
  simpa using h

/-! ## C6 — chunk descriptor invariant -/

/-- Claim C6: with `1 ≤ chunkFramesMin ≤ chunkFramesMax`, every descriptor
emitted by `chunk_video` has `chunkFramesMin ≤ frameCount ≤ chunkFramesMax`
and `startFrame + frameCount ≤ total`; only the final chunk may have its
drawn duration truncated (every non-final descriptor's frame count equals its
raw draw); once the remaining frames fall below the minimum no further chunk
is emitted (the terminal remainder is below the minimum); and a zero-frame
source yields the empty list. -/
theorem chunkVideo_invariants (pathOf : Nat → MPath) (src : MPath)
    (total : Nat) (cfg : SplicerConfig) (r : Rng) (startIdx : Nat)
    (h1 : 1 ≤ cfg.chunk_frames_min)
    (h2 : cfg.chunk_frames_min ≤ cfg.chunk_frames_max) :
    (∀ c ∈ (chunkVideo pathOf src total cfg r startIdx).1,
        cfg.chunk_frames_min ≤ c.frame_count ∧
        c.frame_count ≤ cfg.chunk_frames_max ∧
        c.start_frame + c.frame_count ≤ total) ∧
      (∀ i (hi : i + 1 < (chunkVideoAux pathOf src total cfg r startIdx).1.length),
          ((chunkVideoAux pathOf src total cfg r startIdx).1.get
              ⟨i, Nat.lt_of_succ_lt hi⟩).1.frame_count
            = ((chunkVideoAux pathOf src total cfg r startIdx).1.get
              ⟨i, Nat.lt_of_succ_lt hi⟩).2) ∧
      total - chunksEnd 0 (chunkVideoAux pathOf src total cfg r startIdx).1
          < cfg.chunk_frames_min ∧
      (total = 0 → (chunkVideo pathOf src total cfg r startIdx).1 = []) := by
  obtain ⟨ha, hb, hrem, _, _⟩ :=
    chunkGo_spec pathOf src cfg total h1 h2 (total + 1) 0 startIdx r (by omega)
  refine ⟨?_, hb, hrem, ?_⟩
  · intro c hc
    obtain ⟨e, he, hec⟩ := List.mem_map.mp hc
    obtain ⟨p1, p2, p3, _⟩ := ha e he
    subst hec
    exact ⟨p1, p2, p3⟩
  · intro ht
    subst ht
    simp [chunkVideo, chunkVideoAux, chunkGo]

/-- Witness for C6 at a concrete source: 10 frames, range 3-5, identity
stream. -/
theorem chunkVideo_invariants_witness :
    1 ≤ ({} : SplicerConfig).chunk_frames_min ∧
      ({} : SplicerConfig).chunk_frames_min
        ≤ ({} : SplicerConfig).chunk_frames_max ∧
      (∀ c ∈ (chunkVideo (fun j => MPath.other j) (MPath.other 0) 10 {}
          ⟨fun i => i, 0⟩ 0).1,
        ({} : SplicerConfig).chunk_frames_min ≤ c.frame_count ∧
        c.frame_count ≤ ({} : SplicerConfig).chunk_frames_max ∧
        c.start_frame + c.frame_count ≤ 10) := by
  refine ⟨by decide, by decide, ?_⟩
  exact (chunkVideo_invariants (fun j => MPath.other j) (MPath.other 0) 10 {}
    ⟨fun i => i, 0⟩ 0 (by decide) (by decide)).1

/-! ## Cache and worker-pool lemmas -/

lemma getD_range_map {α : Type} (l : List α) (d : α) :
    (List.range l.length).map (fun i => l.getD i d) = l := by
  apply List.ext_getElem
  · simp
  · intro i h1 h2
    simp only [List.getElem_map, List.getElem_range]
    rw [List.getD_eq_getElem?_getD, List.getElem?_eq_getElem h2]
    rfl

/-- A valid completion order delivers a permutation of the submitted jobs. -/
lemma collect_perm {α : Type} {o : OrdF} (ho : ValidOrd o) (l : List α)
    (d : α) : (collect o l d).Perm l := by
  unfold collect
  rw [show (List.range l.length).map (fun k => l.getD (o l.length k) d)
      = ((List.range l.length).map (o l.length)).map (fun i => l.getD i d) by
    rw [List.map_map]; rfl]
  have h2 := (ho l.length).map (fun i => l.getD i d)
  rwa [getD_range_map] at h2

/-- Dictionary lookup after building from pairs whose value is a function of
the key: later writes repeat the same value, so the result is
order-independent. -/
lemma dictFold_congr {β : Type} (l : List (MPath × β)) (h : MPath → β)
    (hl : ∀ e ∈ l, e.2 = h e.1) (c : MPath → Option β) (k : MPath) :
    dictFold l c k = if k ∈ l.map Prod.fst then some (h k) else c k := by
  induction l generalizing c with
  | nil => simp [dictFold]
  | cons e tl ih =>
    have hstep : dictFold (e :: tl) c = dictFold tl (updFn c e.1 e.2) := rfl
    rw [hstep, ih (fun x hx => hl x (List.mem_cons_of_mem e hx))]
    by_cases htl : k ∈ tl.map Prod.fst
    · simp [htl]
    · by_cases hk : k = e.1
      · subst hk
        simp [htl, updFn, hl e (List.mem_cons_self e tl)]
      · simp [htl, updFn, hk, Ne.symm hk]

/-- The same, with the writes arriving in any valid completion order. -/
lemma dictFold_collect_congr {β : Type} {o : OrdF} (ho : ValidOrd o)
    (l : List (MPath × β)) (d : MPath × β) (h : MPath → β)
    (hl : ∀ e ∈ l, e.2 = h e.1) (c : MPath → Option β) (k : MPath) :
    dictFold (collect o l d) c k
      = if k ∈ l.map Prod.fst then some (h k) else c k := by
  have hp := collect_perm ho l d
  rw [dictFold_congr _ h (fun e he => hl e (hp.mem_iff.mp he)) c k]
  congr 1
  simp [List.Perm.mem_iff (hp.map Prod.fst)]

/-- Lookup characterization of the shared-cache probe phase: every requested
still-uncached path ends up cached with its measurement (or the neutral
default on failure), everything else is untouched — independently of the
completion order. -/
lemma probeLumaInto_lookup (mlProbe : MPath → Option ℚ) {o : OrdF}
    (ho : ValidOrd o) (paths : List MPath) (cache : MPath → Option ℚ)
    (k : MPath) :
    probeLumaInto mlProbe o paths cache k
      = if k ∈ paths.filter (fun p => (cache p).isNone) then
          some ((mlProbe k).getD 128)
        else cache k := by
  unfold probeLumaInto
  rw [dictFold_collect_congr ho _ _ (fun p => (mlProbe p).getD 128) ?_ cache k]
  · congr 1
    simp [List.map_map, Function.comp]
  · intro e he
    obtain ⟨p, _, hpe⟩ := List.mem_map.mp he
    rw [← hpe]

/-! ## C9 — luma measurement failure degrades to the neutral default -/

/-- Claim C9: under any completion order of the probe pool, a path whose
mean-luma measurement fails is recorded in the shared cache with the neutral
default 128.0 and the pass returns normally — already-cached entries are left
untouched, so a failure never aborts the probe phase. -/
theorem luma_probe_failure_defaults (mlProbe : MPath → Option ℚ) (o : OrdF)
    (paths : List MPath) (cache : MPath → Option ℚ) (p : MPath)
    (ho : ValidOrd o) :
    (p ∈ paths → cache p = none → mlProbe p = none →
        probeLumaInto mlProbe o paths cache p = some 128) ∧
      (∀ q, (cache q).isSome →
        probeLumaInto mlProbe o paths cache q = cache q) := by
  constructor
  · intro hp hc hf
    rw [probeLumaInto_lookup mlProbe ho paths cache p,
      if_pos (List.mem_filter.mpr ⟨hp, by simp [hc]⟩), hf]
    rfl
  · intro q hq
    rw [probeLumaInto_lookup mlProbe ho paths cache q, if_neg]
    intro hmem
    have := (List.mem_filter.mp hmem).2
    simp only [Option.isNone_iff_eq_none] at this
    rw [this] at hq
    simp at hq

lemma validOrd_idOrd : ValidOrd idOrd := by
  intro n
  show ((List.range n).map (fun k => k)).Perm (List.range n)
  rw [List.map_id']

lemma validSchedule_idSchedule : ValidSchedule idSchedule := fun _ =>
  validOrd_idOrd

/-- Witness for C9: one path, failing measurement, submission-order pool. -/
theorem luma_probe_failure_defaults_witness :
    ValidOrd idOrd ∧
      (MPath.other 0 ∈ [MPath.other 0] ∧
        (fun _ : MPath => (none : Option ℚ)) (MPath.other 0) = none ∧
        probeLumaInto (fun _ => none) idOrd [MPath.other 0] (fun _ => none)
            (MPath.other 0) = some 128) :=
  ⟨validOrd_idOrd,
    List.mem_singleton.mpr rfl, rfl,
    (luma_probe_failure_defaults (fun _ => none) idOrd [MPath.other 0]
        (fun _ => none) (MPath.other 0) validOrd_idOrd).1
      (List.mem_singleton.mpr rfl) rfl rfl⟩

/-! ## C8 — expected-frame-count reconciliation is a per-entry sum -/

lemma countStep_eq (chunkMap imageMap normMap : MPath → Option Nat)
    (bufferPath : Option MPath) (cfg : SplicerConfig)
    (probeFB : MPath → Option Nat) (total : Nat) (p : MPath) :
    (if bufferPath = some p then total + cfg.antistrobe_buffer_frames
      else match chunkMap p with
        | some n => total + n
        | none => match imageMap p with
          | some n => total + n
          | none => match normMap p with
            | some n => total + n
            | none => total + (probeFB p).getD 0)
      = total + entryFramesSpec chunkMap imageMap normMap bufferPath cfg
          probeFB p := by
  unfold entryFramesSpec
  by_cases hb : bufferPath = some p
  · simp [hb]
  · simp only [if_neg hb]
    cases chunkMap p <;> cases imageMap p <;> cases normMap p <;> simp

/-- Claim C8: `_count_expected_frames` is exactly the sum over sequence
entries of the per-entry frame count (buffer occurrences contribute the
configured buffer frames, chunks their recorded count, image segments their
drawn duration, adjusted variants their original's count, and any entry
resolvable by none of the maps contributes its fallback probe, or zero when
that probe also fails — never aborting). -/
theorem countExpectedFrames_is_sum (seq : List MPath)
    (chunkMap imageMap normMap : MPath → Option Nat)
    (bufferPath : Option MPath) (cfg : SplicerConfig)
    (probeFB : MPath → Option Nat) :
    countExpectedFrames seq chunkMap imageMap normMap bufferPath cfg probeFB
        = (seq.map (entryFramesSpec chunkMap imageMap normMap bufferPath cfg
            probeFB)).sum ∧
      (∀ p, bufferPath ≠ some p → chunkMap p = none → imageMap p = none →
        normMap p = none → probeFB p = none →
        entryFramesSpec chunkMap imageMap normMap bufferPath cfg probeFB p
          = 0) := by
  constructor
  · suffices h : ∀ init : Nat,
        seq.foldl (fun total p =>
          if bufferPath = some p then total + cfg.antistrobe_buffer_frames
          else match chunkMap p with
            | some n => total + n
            | none => match imageMap p with
              | some n => total + n
              | none => match normMap p with
                | some n => total + n
                | none => total + (probeFB p).getD 0) init
          = init + (seq.map (entryFramesSpec chunkMap imageMap normMap
              bufferPath cfg probeFB)).sum by
      simpa [countExpectedFrames] using h 0
    induction seq with
    | nil => simp
    | cons p tl ih =>
      intro init
      simp only [List.foldl_cons, List.map_cons, List.sum_cons]
      rw [countStep_eq chunkMap imageMap normMap bufferPath cfg probeFB init p,
        ih (init + entryFramesSpec chunkMap imageMap normMap bufferPath cfg
          probeFB p)]
      omega
  · intro p hb hc hi hn hf
    unfold entryFramesSpec
    simp [Ne.symm, if_neg (by exact fun h => hb h), hc, hi, hn, hf]

/-- Witness for C8's zero-contribution clause at a concrete unresolvable
entry. -/
theorem countExpectedFrames_is_sum_witness :
    (none : Option MPath) ≠ some (MPath.other 7) ∧
      entryFramesSpec (fun _ => none) (fun _ => none) (fun _ => none) none
          {} (fun _ => none) (MPath.other 7) = 0 :=
  ⟨by simp,
    (countExpectedFrames_is_sum [] (fun _ => none) (fun _ => none)
        (fun _ => none) none {} (fun _ => none)).2 (MPath.other 7)
      (by simp) rfl rfl rfl rfl⟩

/-! ## Luma-normalization lemmas -/

lemma mem_encodeJobsOf {seq : List MPath} {c : MPath → Option ℚ} {m : ℚ}
    {p : MPath} {d : ℚ} :
    (p, d) ∈ encodeJobsOf seq c m ↔
      p ∈ uniquePaths seq ∧ d = m - (c p).getD 128 ∧
        2 ≤ |m - (c p).getD 128| := by
  unfold encodeJobsOf
  rw [List.mem_filterMap]
  constructor
  · rintro ⟨a, ha, hfa⟩
    by_cases h : 2 ≤ |m - (c a).getD 128|
    · rw [if_pos h] at hfa
      obtain ⟨h3, h4⟩ := Prod.ext_iff.mp (Option.some.inj hfa)
      subst h3
      subst h4
      exact ⟨ha, rfl, h⟩
    · rw [if_neg h] at hfa
      exact absurd hfa (by simp)
  · rintro ⟨hp, rfl, h2⟩
    exact ⟨p, hp, by rw [if_pos h2]⟩

lemma map_fst_filterMap_ite {β : Type} (l : List MPath) (g : MPath → β)
    (P : MPath → Prop) [DecidablePred P] :
    ((l.filterMap (fun p => if P p then some (p, g p) else none)).map
        Prod.fst) = l.filter (fun p => decide (P p)) := by
  induction l with
  | nil => rfl
  | cons x tl ih =>
    by_cases h : P x <;> simp [h, ih]

lemma map_fst_encodeJobsOf (seq : List MPath) (c : MPath → Option ℚ)
    (m : ℚ) :
    (encodeJobsOf seq c m).map Prod.fst
      = (uniquePaths seq).filter
          (fun p => decide (2 ≤ |m - (c p).getD 128|)) :=
  map_fst_filterMap_ite (uniquePaths seq)
    (fun p => m - (c p).getD 128) (fun p => 2 ≤ |m - (c p).getD 128|)

lemma nodup_encodeJobs_keys (seq : List MPath) (c : MPath → Option ℚ)
    (m : ℚ) : ((encodeJobsOf seq c m).map Prod.fst).Nodup := by
  rw [map_fst_encodeJobsOf]
  exact (List.nodup_dedup seq).filter _

lemma lumaResults_keys (seq : List MPath) (cfg : SplicerConfig)
    (mlProbe : MPath → Option ℚ) (encOk : Nat → Bool) (oProbe : OrdF) :
    (lumaResults seq cfg mlProbe encOk oProbe).map (fun e => e.1)
      = (encodeJobsOf seq (lumaCache1 seq mlProbe oProbe)
          (globalMeanOf seq (lumaCache1 seq mlProbe oProbe))).map Prod.fst := by
  unfold lumaResults
  rw [List.map_map]
  have h1 : ∀ e : Nat × MPath × ℚ,
      ((fun e => e.1) ∘ (fun e : Nat × MPath × ℚ =>
        if encOk e.1 then
          (e.2.1, some (MPath.lnorm e.1),
            ((lumaCache1 seq mlProbe oProbe) e.2.1).getD 128
              + e.2.2 * cfg.antistrobe_luma_strength)
        else (e.2.1, none, e.2.2))) e = e.2.1 := by
    intro e
    by_cases h : encOk e.1 <;> simp [h]
  rw [List.map_congr_left (fun e _ => h1 e)]
  have h2 : (encodeJobsOf seq (lumaCache1 seq mlProbe oProbe)
        (globalMeanOf seq (lumaCache1 seq mlProbe oProbe))).enum.map
          (fun e => e.2.1)
      = ((encodeJobsOf seq (lumaCache1 seq mlProbe oProbe)
          (globalMeanOf seq (lumaCache1 seq mlProbe oProbe))).enum.map
            Prod.snd).map Prod.fst := by
    rw [List.map_map]; rfl
  rw [h2, List.enum_map_snd]

lemma map_fst_filterMap_opt (l : List (MPath × Option MPath × ℚ)) :
    ((l.filterMap (fun e => e.2.1.map (fun p2 => (e.1, p2, e.2.2)))).map
        (fun x => x.1)).Sublist (l.map (fun e => e.1)) := by
  induction l with
  | nil => simp
  | cons e tl ih =>
    rcases h : e.2.1 with _ | a
    · simpa [h] using ih.cons e.1
    · simpa [h] using List.Sublist.cons₂ e.1 ih

lemma nodup_completed_keys (seq : List MPath) (cfg : SplicerConfig)
    (mlProbe : MPath → Option ℚ) (encOk : Nat → Bool) (oProbe : OrdF)
    {oEnc : OrdF} (hoE : ValidOrd oEnc) :
    ((lumaCompleted seq cfg mlProbe encOk oProbe oEnc).map
      (fun e => e.1)).Nodup := by
  unfold lumaCompleted
  have hperm := (collect_perm hoE (lumaResults seq cfg mlProbe encOk oProbe)
    (default, none, 0)).filterMap
    (fun e => e.2.1.map (fun p2 => (e.1, p2, e.2.2)))
  rw [List.Perm.nodup_iff (hperm.map (fun e => e.1))]
  refine (map_fst_filterMap_opt _).nodup ?_
  rw [lumaResults_keys]
  exact nodup_encodeJobs_keys _ _ _

/-- Substitution shape of the final sequence: every occurrence is replaced
through the one norm-cache lookup (identity where absent). -/
lemma lumaNormalize_sequence (seq : List MPath) (cfg : SplicerConfig)
    (mlProbe : MPath → Option ℚ) (encOk : Nat → Bool) (oProbe oEnc : OrdF) :
    (lumaNormalize seq cfg mlProbe encOk oProbe oEnc).sequence
      = seq.map (fun p =>
          ((dictFold (lumaNormalize seq cfg mlProbe encOk oProbe oEnc).normPairs
            (fun _ => none)) p).getD p) := by
  unfold lumaNormalize
  split_ifs with h1 h2
  · simp [dictFold]
  · simp [dictFold]
  · rfl

/-! ## C5 — each distinct path encoded at most once -/

/-- Claim C5: under any valid completion order of the encode pool, the
brightness-encode step receives each distinct path at most once per run (the
request keys are duplicate-free), each successfully encoded path has exactly
one adjusted variant (the norm-cache keys are duplicate-free), and the final
sequence substitutes every occurrence through that single per-path lookup. -/
theorem luma_encode_at_most_once (seq : List MPath) (cfg : SplicerConfig)
    (mlProbe : MPath → Option ℚ) (encOk : Nat → Bool) (oProbe oEnc : OrdF)
    (hoE : ValidOrd oEnc) :
    (((lumaNormalize seq cfg mlProbe encOk oProbe oEnc).requests.map
        Prod.fst).Nodup) ∧
      (((lumaNormalize seq cfg mlProbe encOk oProbe oEnc).normPairs.map
        Prod.fst).Nodup) ∧
      ((lumaNormalize seq cfg mlProbe encOk oProbe oEnc).sequence
        = seq.map (fun p =>
            ((dictFold (lumaNormalize seq cfg mlProbe encOk oProbe
              oEnc).normPairs (fun _ => none)) p).getD p)) := by
  refine ⟨?_, ?_, lumaNormalize_sequence seq cfg mlProbe encOk oProbe oEnc⟩
  · unfold lumaNormalize
    split_ifs with h1 h2
    · simp
    · simp
    · show (((encodeJobsOf seq (lumaCache1 seq mlProbe oProbe)
          (globalMeanOf seq (lumaCache1 seq mlProbe oProbe))).map
            (fun e => (e.1, clamp (e.2 / 255
              * cfg.antistrobe_luma_strength)))).map Prod.fst).Nodup
      rw [List.map_map]
      have : ∀ e : MPath × ℚ, (Prod.fst ∘ (fun e : MPath × ℚ =>
          (e.1, clamp (e.2 / 255 * cfg.antistrobe_luma_strength)))) e
            = Prod.fst e := fun e => rfl
      rw [List.map_congr_left (fun e _ => this e)]
      exact nodup_encodeJobs_keys _ _ _
  · unfold lumaNormalize
    split_ifs with h1 h2
    · simp
    · simp
    · show (((lumaCompleted seq cfg mlProbe encOk oProbe oEnc).map
          (fun e => (e.1, e.2.1))).map Prod.fst).Nodup
      rw [List.map_map]
      have : ∀ e : MPath × MPath × ℚ,
          (Prod.fst ∘ (fun e : MPath × MPath × ℚ => (e.1, e.2.1))) e
            = (fun e : MPath × MPath × ℚ => e.1) e := fun e => rfl
      rw [List.map_congr_left (fun e _ => this e)]
      exact nodup_completed_keys seq cfg mlProbe encOk oProbe hoE

/-- Witness for C5: a sequence with a repeated path, lumas 100/156, all
encodes succeeding, submission-order pools. -/
theorem luma_encode_at_most_once_witness :
    ValidOrd idOrd ∧
      (((lumaNormalize [MPath.other 0, MPath.other 1, MPath.other 0] {}
          (fun p => if p = MPath.other 0 then some 100 else some 156)
          (fun _ => true) idOrd idOrd).requests.map Prod.fst).Nodup) := by
  refine ⟨validOrd_idOrd, ?_⟩
  exact (luma_encode_at_most_once
    [MPath.other 0, MPath.other 1, MPath.other 0] {}
    (fun p => if p = MPath.other 0 then some 100 else some 156)
    (fun _ => true) idOrd idOrd validOrd_idOrd).1

/-! ## C7 — conditional-encode formula -/

lemma mem_collect {α : Type} {o : OrdF} (ho : ValidOrd o) {l : List α}
    {d x : α} (hx : x ∈ collect o l d) : x ∈ l :=
  (collect_perm ho l d).mem_iff.mp hx

lemma dictFold_not_mem_keys {β : Type} {l : List (MPath × β)}
    {c : MPath → Option β} {k : MPath} (h : k ∉ l.map Prod.fst) :
    dictFold l c k = c k := by
  induction l generalizing c with
  | nil => rfl
  | cons e tl ih =>
    have hk : k ≠ e.1 := by
      intro hk
      exact h (by simp [hk])
    have hstep : dictFold (e :: tl) c = dictFold tl (updFn c e.1 e.2) := rfl
    rw [hstep, ih (by intro hm; exact h (by simp [hm]))]
    simp [updFn, hk]

lemma getD_mem {α : Type} {l : List α} {i : Nat} (h : i < l.length) (d : α) :
    l.getD i d ∈ l := by
  rw [List.getD_eq_getElem?_getD, List.getElem?_eq_getElem h]
  exact List.getElem_mem h

/-- Every collected encode result is job `i`'s success record: original path
`jobs[i].1`, output `lnorm_{i}.mp4`, and the analytic new-luma estimate. -/
lemma mem_lumaCompleted {seq : List MPath} {cfg : SplicerConfig}
    {mlProbe : MPath → Option ℚ} {encOk : Nat → Bool} {oProbe : OrdF}
    {oEnc : OrdF} (hoE : ValidOrd oEnc) {e : MPath × MPath × ℚ}
    (he : e ∈ lumaCompleted seq cfg mlProbe encOk oProbe oEnc) :
    ∃ i, i < (encodeJobsOf seq (lumaCache1 seq mlProbe oProbe)
        (globalMeanOf seq (lumaCache1 seq mlProbe oProbe))).length ∧
      encOk i = true ∧
      e = (((encodeJobsOf seq (lumaCache1 seq mlProbe oProbe)
            (globalMeanOf seq (lumaCache1 seq mlProbe oProbe))).getD i
              (default, 0)).1,
          MPath.lnorm i,
          ((lumaCache1 seq mlProbe oProbe)
              ((encodeJobsOf seq (lumaCache1 seq mlProbe oProbe)
                (globalMeanOf seq (lumaCache1 seq mlProbe oProbe))).getD i
                  (default, 0)).1).getD 128
            + ((encodeJobsOf seq (lumaCache1 seq mlProbe oProbe)
                (globalMeanOf seq (lumaCache1 seq mlProbe oProbe))).getD i
                  (default, 0)).2 * cfg.antistrobe_luma_strength) := by
  obtain ⟨x, hx, hfx⟩ := List.mem_filterMap.mp he
  have hx2 : x ∈ lumaResults seq cfg mlProbe encOk oProbe := mem_collect hoE hx
  obtain ⟨je, hje, hgj⟩ := List.mem_map.mp hx2
  have hmem := List.mem_enum_iff_getElem?.mp hje
  have hlt : je.1 < (encodeJobsOf seq (lumaCache1 seq mlProbe oProbe)
      (globalMeanOf seq (lumaCache1 seq mlProbe oProbe))).length := by
    by_contra hge
    rw [List.getElem?_eq_none (by omega)] at hmem
    exact Option.noConfusion hmem
  have hgetD : (encodeJobsOf seq (lumaCache1 seq mlProbe oProbe)
      (globalMeanOf seq (lumaCache1 seq mlProbe oProbe))).getD je.1
        (default, 0) = je.2 := by
    rw [List.getD_eq_getElem?_getD, hmem]
    rfl
  by_cases hok : encOk je.1
  · refine ⟨je.1, hlt, hok, ?_⟩
    rw [if_pos hok] at hgj
    rw [← hgj] at hfx
    simp only [Option.map_some] at hfx
    rw [← Option.some.inj hfx, hgetD]
  · rw [if_neg hok] at hgj
    rw [← hgj] at hfx
    simp at hfx

lemma lumaNormalize_requests_eq (seq : List MPath) (cfg : SplicerConfig)
    (mlProbe : MPath → Option ℚ) (encOk : Nat → Bool) (oProbe oEnc : OrdF)
    (hstr : ¬ cfg.antistrobe_luma_strength ≤ 0)
    (hne : ¬ (uniquePaths seq).isEmpty = true) :
    (lumaNormalize seq cfg mlProbe encOk oProbe oEnc).requests
      = (encodeJobsOf seq (lumaCache1 seq mlProbe oProbe)
          (globalMeanOf seq (lumaCache1 seq mlProbe oProbe))).map
          (fun e => (e.1, clamp (e.2 / 255
            * cfg.antistrobe_luma_strength))) := by
  unfold lumaNormalize
  rw [if_neg hstr, if_neg hne]

lemma lumaNormalize_normPairs_eq (seq : List MPath) (cfg : SplicerConfig)
    (mlProbe : MPath → Option ℚ) (encOk : Nat → Bool) (oProbe oEnc : OrdF)
    (hstr : ¬ cfg.antistrobe_luma_strength ≤ 0)
    (hne : ¬ (uniquePaths seq).isEmpty = true) :
    (lumaNormalize seq cfg mlProbe encOk oProbe oEnc).normPairs
      = (lumaCompleted seq cfg mlProbe encOk oProbe oEnc).map
          (fun e => (e.1, e.2.1)) := by
  unfold lumaNormalize
  rw [if_neg hstr, if_neg hne]

lemma lumaNormalize_cache_eq (seq : List MPath) (cfg : SplicerConfig)
    (mlProbe : MPath → Option ℚ) (encOk : Nat → Bool) (oProbe oEnc : OrdF)
    (hstr : ¬ cfg.antistrobe_luma_strength ≤ 0)
    (hne : ¬ (uniquePaths seq).isEmpty = true) :
    (lumaNormalize seq cfg mlProbe encOk oProbe oEnc).cache
      = dictFold ((lumaCompleted seq cfg mlProbe encOk oProbe oEnc).map
          (fun e => (e.2.1, e.2.2))) (lumaCache1 seq mlProbe oProbe) := by
  unfold lumaNormalize
  rw [if_neg hstr, if_neg hne]

/-- Estimated new luma as a function of the adjusted-variant path alone: the
variant of job `j` carries job `j`'s analytic estimate. -/
def lnormEstimate (seq : List MPath) (cfg : SplicerConfig)
    (mlProbe : MPath → Option ℚ) (oProbe : OrdF) : MPath → ℚ :=
  fun k => match k with
  | MPath.lnorm j =>
    ((lumaCache1 seq mlProbe oProbe)
        ((encodeJobsOf seq (lumaCache1 seq mlProbe oProbe)
          (globalMeanOf seq (lumaCache1 seq mlProbe oProbe))).getD j
            (default, 0)).1).getD 128
      + ((encodeJobsOf seq (lumaCache1 seq mlProbe oProbe)
          (globalMeanOf seq (lumaCache1 seq mlProbe oProbe))).getD j
            (default, 0)).2 * cfg.antistrobe_luma_strength
  | _ => 0

/-- Claim C7: let `cache` be the probe-phase luma cache and `mean` the global
mean over the distinct paths of the working sequence.  For every distinct
path `p` whose cached luma differs from `mean` by at least 2.0, the run
requests exactly the brightness
`clamp(-1, 1, (mean - luma(p)) / 255 * strength)` for `p`, and any adjusted
variant `q` of `p` is cached with the analytic estimate
`luma(p) + (mean - luma(p)) * strength`; a path below the threshold is
neither requested nor adjusted, and any path with no adjusted variant
(including every failed re-encode) is left unchanged at each of its
occurrences of the final sequence. -/
theorem luma_conditional_encode_formula (seq : List MPath)
    (cfg : SplicerConfig) (mlProbe : MPath → Option ℚ) (encOk : Nat → Bool)
    (oProbe oEnc : OrdF) (hs : 0 < cfg.antistrobe_luma_strength)
    (hoE : ValidOrd oEnc) (p : MPath) (hp : p ∈ uniquePaths seq) :
    (2 ≤ |globalMeanOf seq (lumaCache1 seq mlProbe oProbe)
        - ((lumaCache1 seq mlProbe oProbe) p).getD 128| →
      ((p, clamp ((globalMeanOf seq (lumaCache1 seq mlProbe oProbe)
            - ((lumaCache1 seq mlProbe oProbe) p).getD 128) / 255
          * cfg.antistrobe_luma_strength))
        ∈ (lumaNormalize seq cfg mlProbe encOk oProbe oEnc).requests) ∧
      (∀ q, (p, q) ∈ (lumaNormalize seq cfg mlProbe encOk oProbe
          oEnc).normPairs →
        (lumaNormalize seq cfg mlProbe encOk oProbe oEnc).cache q
          = some (((lumaCache1 seq mlProbe oProbe) p).getD 128
            + (globalMeanOf seq (lumaCache1 seq mlProbe oProbe)
              - ((lumaCache1 seq mlProbe oProbe) p).getD 128)
              * cfg.antistrobe_luma_strength))) ∧
    (|globalMeanOf seq (lumaCache1 seq mlProbe oProbe)
        - ((lumaCache1 seq mlProbe oProbe) p).getD 128| < 2 →
      (∀ b, (p, b) ∉ (lumaNormalize seq cfg mlProbe encOk oProbe
          oEnc).requests) ∧
      (∀ q, (p, q) ∉ (lumaNormalize seq cfg mlProbe encOk oProbe
          oEnc).normPairs)) ∧
    (∀ x, (∀ q, (x, q) ∉ (lumaNormalize seq cfg mlProbe encOk oProbe
          oEnc).normPairs) →
      ((dictFold (lumaNormalize seq cfg mlProbe encOk oProbe oEnc).normPairs
        (fun _ => none)) x).getD x = x) ∧
    (lumaNormalize seq cfg mlProbe encOk oProbe oEnc).sequence
      = seq.map (fun y =>
          ((dictFold (lumaNormalize seq cfg mlProbe encOk oProbe
            oEnc).normPairs (fun _ => none)) y).getD y) := by
  have hne : ¬ (uniquePaths seq).isEmpty = true := by
    intro h
    rw [List.isEmpty_iff.mp h] at hp
    simp at hp
  have hstr : ¬ cfg.antistrobe_luma_strength ≤ 0 := not_le.mpr hs
  refine ⟨?_, ?_, ?_, lumaNormalize_sequence seq cfg mlProbe encOk oProbe oEnc⟩
  · intro h2
    constructor
    · rw [lumaNormalize_requests_eq seq cfg mlProbe encOk oProbe oEnc hstr hne]
      exact List.mem_map.mpr ⟨(p, globalMeanOf seq
          (lumaCache1 seq mlProbe oProbe)
            - ((lumaCache1 seq mlProbe oProbe) p).getD 128),
        mem_encodeJobsOf.mpr ⟨hp, rfl, h2⟩, rfl⟩
    · intro q hq
      rw [lumaNormalize_normPairs_eq seq cfg mlProbe encOk oProbe oEnc hstr
        hne] at hq
      rw [lumaNormalize_cache_eq seq cfg mlProbe encOk oProbe oEnc hstr hne]
      obtain ⟨e, he, hepq⟩ := List.mem_map.mp hq
      obtain ⟨i, hi, hok, hei⟩ := mem_lumaCompleted hoE he
      have hp1 : e.1 = p := congrArg Prod.fst hepq
      have hq1 : e.2.1 = q := congrArg (fun x => x.2) hepq
      have hl : ∀ w ∈ (lumaCompleted seq cfg mlProbe encOk oProbe oEnc).map
          (fun e => (e.2.1, e.2.2)),
          w.2 = lnormEstimate seq cfg mlProbe oProbe w.1 := by
        intro w hw
        obtain ⟨e2, he2, hwe2⟩ := List.mem_map.mp hw
        obtain ⟨j, hj, hok2, hej2⟩ := mem_lumaCompleted hoE he2
        subst hej2
        rw [← hwe2]
        rfl
      rw [dictFold_congr _ (lnormEstimate seq cfg mlProbe oProbe) hl
        (lumaCache1 seq mlProbe oProbe) q]
      rw [if_pos (List.mem_map.mpr ⟨(e.2.1, e.2.2),
        List.mem_map.mpr ⟨e, he, rfl⟩, hq1⟩)]
      have hq2 : q = MPath.lnorm i := by
        rw [← hq1, hei]
      have hjfst : ((encodeJobsOf seq (lumaCache1 seq mlProbe oProbe)
          (globalMeanOf seq (lumaCache1 seq mlProbe oProbe))).getD i
            (default, 0)).1 = p := by
        rw [← hp1, hei]
      have hjsnd : ((encodeJobsOf seq (lumaCache1 seq mlProbe oProbe)
            (globalMeanOf seq (lumaCache1 seq mlProbe oProbe))).getD i
              (default, 0)).2
          = globalMeanOf seq (lumaCache1 seq mlProbe oProbe)
            - ((lumaCache1 seq mlProbe oProbe)
                ((encodeJobsOf seq (lumaCache1 seq mlProbe oProbe)
                  (globalMeanOf seq (lumaCache1 seq mlProbe oProbe))).getD i
                    (default, 0)).1).getD 128 :=
        (mem_encodeJobsOf.mp (getD_mem hi ((default : MPath), (0 : ℚ)))).2.1
      rw [hq2]
      have hest : lnormEstimate seq cfg mlProbe oProbe (MPath.lnorm i)
          = ((lumaCache1 seq mlProbe oProbe)
              ((encodeJobsOf seq (lumaCache1 seq mlProbe oProbe)
                (globalMeanOf seq (lumaCache1 seq mlProbe oProbe))).getD i
                  (default, 0)).1).getD 128
            + ((encodeJobsOf seq (lumaCache1 seq mlProbe oProbe)
                (globalMeanOf seq (lumaCache1 seq mlProbe oProbe))).getD i
                  (default, 0)).2 * cfg.antistrobe_luma_strength := rfl
      rw [hest, hjsnd, hjfst]
  · intro hlt
    constructor
    · intro b hb
      rw [lumaNormalize_requests_eq seq cfg mlProbe encOk oProbe oEnc hstr
        hne] at hb
      obtain ⟨e, he, heb⟩ := List.mem_map.mp hb
      have he1 : e.1 = p := congrArg Prod.fst heb
      have hmem : (p, e.2) ∈ encodeJobsOf seq (lumaCache1 seq mlProbe oProbe)
          (globalMeanOf seq (lumaCache1 seq mlProbe oProbe)) := by
        rw [← he1]
        exact he
      exact absurd (mem_encodeJobsOf.mp hmem).2.2 (not_le.mpr hlt)
    · intro q hq
      rw [lumaNormalize_normPairs_eq seq cfg mlProbe encOk oProbe oEnc hstr
        hne] at hq
      obtain ⟨e, he, hepq⟩ := List.mem_map.mp hq
      obtain ⟨i, hi, hok, hei⟩ := mem_lumaCompleted hoE he
      have hp1 : e.1 = p := congrArg Prod.fst hepq
      have hjfst : ((encodeJobsOf seq (lumaCache1 seq mlProbe oProbe)
          (globalMeanOf seq (lumaCache1 seq mlProbe oProbe))).getD i
            (default, 0)).1 = p := by
        rw [← hp1, hei]
      have hjmem3 : 2 ≤ |globalMeanOf seq (lumaCache1 seq mlProbe oProbe)
          - ((lumaCache1 seq mlProbe oProbe)
              ((encodeJobsOf seq (lumaCache1 seq mlProbe oProbe)
                (globalMeanOf seq (lumaCache1 seq mlProbe oProbe))).getD i
                  (default, 0)).1).getD 128| :=
        (mem_encodeJobsOf.mp (getD_mem hi ((default : MPath), (0 : ℚ)))).2.2
      rw [hjfst] at hjmem3
      exact absurd hjmem3 (not_le.mpr hlt)
  · intro x hx
    have hxk : x ∉ ((lumaNormalize seq cfg mlProbe encOk oProbe
        oEnc).normPairs).map Prod.fst := by
      intro hm
      obtain ⟨pr, hpr, hprx⟩ := List.mem_map.mp hm
      refine hx pr.2 ?_
      have hpr2 : (pr.1, pr.2) ∈ (lumaNormalize seq cfg mlProbe encOk oProbe
          oEnc).normPairs := hpr
      rw [hprx] at hpr2
      exact hpr2
    rw [dictFold_not_mem_keys hxk]
    rfl

/-- Witness for C7 at the spec's scenario: two clips with lumas 100 and 156
(global mean 128), strength 0.5, all encodes succeeding — the brighter and
darker clip both exceed the 2.0 negligibility threshold, and the darker
clip's requested brightness is `clamp(28/255*0.5)`. -/
theorem luma_conditional_encode_formula_witness :
    0 < ({} : SplicerConfig).antistrobe_luma_strength ∧ ValidOrd idOrd ∧
      MPath.other 0 ∈ uniquePaths [MPath.other 0, MPath.other 1] ∧
      2 ≤ |globalMeanOf [MPath.other 0, MPath.other 1]
          (lumaCache1 [MPath.other 0, MPath.other 1]
            (fun p => if p = MPath.other 0 then some 100 else some 156) idOrd)
        - ((lumaCache1 [MPath.other 0, MPath.other 1]
            (fun p => if p = MPath.other 0 then some 100 else some 156) idOrd)
            (MPath.other 0)).getD 128| ∧
      ((MPath.other 0, clamp ((globalMeanOf [MPath.other 0, MPath.other 1]
            (lumaCache1 [MPath.other 0, MPath.other 1]
              (fun p => if p = MPath.other 0 then some 100 else some 156)
              idOrd)
          - ((lumaCache1 [MPath.other 0, MPath.other 1]
              (fun p => if p = MPath.other 0 then some 100 else some 156)
              idOrd) (MPath.other 0)).getD 128) / 255
          * ({} : SplicerConfig).antistrobe_luma_strength))
        ∈ (lumaNormalize [MPath.other 0, MPath.other 1] {}
            (fun p => if p = MPath.other 0 then some 100 else some 156)
            (fun _ => true) idOrd idOrd).requests) := by
  have hmean : globalMeanOf [MPath.other 0, MPath.other 1]
      (lumaCache1 [MPath.other 0, MPath.other 1]
        (fun p => if p = MPath.other 0 then some 100 else some 156) idOrd)
      = 128 := by
    unfold globalMeanOf
    rw [show uniquePaths [MPath.other 0, MPath.other 1]
      = [MPath.other 0, MPath.other 1] from rfl]
    simp only [List.map_cons, List.map_nil, List.sum_cons, List.sum_nil,
      List.length_cons, List.length_nil]
    rw [show (lumaCache1 [MPath.other 0, MPath.other 1]
      (fun p => if p = MPath.other 0 then some 100 else some 156) idOrd)
        (MPath.other 0) = some 100 from rfl]
    rw [show (lumaCache1 [MPath.other 0, MPath.other 1]
      (fun p => if p = MPath.other 0 then some 100 else some 156) idOrd)
        (MPath.other 1) = some 156 from rfl]
    norm_num
  have hc : (lumaCache1 [MPath.other 0, MPath.other 1]
      (fun p => if p = MPath.other 0 then some 100 else some 156) idOrd)
      (MPath.other 0) = some 100 := rfl
  have hth : 2 ≤ |globalMeanOf [MPath.other 0, MPath.other 1]
      (lumaCache1 [MPath.other 0, MPath.other 1]
        (fun p => if p = MPath.other 0 then some 100 else some 156) idOrd)
    - ((lumaCache1 [MPath.other 0, MPath.other 1]
        (fun p => if p = MPath.other 0 then some 100 else some 156) idOrd)
        (MPath.other 0)).getD 128| := by
    rw [hmean, hc]
    norm_num
  refine ⟨by norm_num, validOrd_idOrd, by decide, hth, ?_⟩
  exact ((luma_conditional_encode_formula [MPath.other 0, MPath.other 1] {}
      (fun p => if p = MPath.other 0 then some 100 else some 156)
      (fun _ => true) idOrd idOrd (by norm_num) validOrd_idOrd
      (MPath.other 0) (by decide)).1 hth).1

/-! ## C3 — luma-delta safety pass gating and contract -/

lemma lumaDeltaRun_of_pos (seq : List MPath) (cfg : SplicerConfig)
    (mlProbe : MPath → Option ℚ) (o : OrdF) (cache : MPath → Option ℚ)
    (ht : 0 < cfg.antistrobe_delta_threshold) :
    lumaDeltaRun seq cfg mlProbe o cache
      = (probeLumaInto mlProbe o
          ((seq.filter (fun p => (cache p).isNone)).dedup) cache,
        (List.range (seq.length - 1)).filterMap (fun i =>
          let a := ((probeLumaInto mlProbe o
            ((seq.filter (fun p => (cache p).isNone)).dedup) cache)
              (seq.getD i default)).getD 128
          let b := ((probeLumaInto mlProbe o
            ((seq.filter (fun p => (cache p).isNone)).dedup) cache)
              (seq.getD (i + 1) default)).getD 128
          if cfg.antistrobe_delta_threshold < |a - b| then
            some ⟨i, |a - b|, cfg.antistrobe_delta_threshold⟩
          else none)) := by
  unfold lumaDeltaRun
  rw [if_neg (not_le.mpr ht)]

lemma lumaDeltaRun_of_nonpos (seq : List MPath) (cfg : SplicerConfig)
    (mlProbe : MPath → Option ℚ) (o : OrdF) (cache : MPath → Option ℚ)
    (ht : cfg.antistrobe_delta_threshold ≤ 0) :
    lumaDeltaRun seq cfg mlProbe o cache = (cache, []) := by
  unfold lumaDeltaRun
  rw [if_pos ht]

lemma assembleRun_delta_proj (chunks : List ChunkInfo) (numImages : Nat)
    (cfg : SplicerConfig) (r : Rng) (O : Oracles) (S : Schedule)
    (hen : cfg.antistrobe_enabled = true) :
    (assembleRun chunks numImages cfg r O S).lumaFlags
        = (lumaDeltaRun (assembleRun chunks numImages cfg r O S).sequence cfg
            O.mlProbe (S 4)
            (assembleRun chunks numImages cfg r O S).lumaCache).2 ∧
      (assembleRun chunks numImages cfg r O S).cacheFinal
        = (lumaDeltaRun (assembleRun chunks numImages cfg r O S).sequence cfg
            O.mlProbe (S 4)
            (assembleRun chunks numImages cfg r O S).lumaCache).1 := by
  simp only [assembleRun, hen]
  constructor <;> rfl

/-- Claim C3, counterexample: with anti-strobe disabled but a positive
luma-delta threshold of 80, a two-chunk run whose clips measure 0 and 200
(delta 200, far above the threshold) produces no luma flag at all — the
delta pass is gated on `antistrobe_enabled`, not only on the threshold. -/
theorem lumaDelta_gate_cex :
    (0:ℚ) < ({ antistrobe_enabled := false } :
        SplicerConfig).antistrobe_delta_threshold ∧
      (assembleRun
          [⟨MPath.other 10, 0, 3, MPath.other 0, 0⟩,
            ⟨MPath.other 10, 3, 3, MPath.other 1, 1⟩] 0
          { antistrobe_enabled := false } ⟨fun _ => 0, 0⟩
          ⟨fun _ => true, fun _ => 10, fun _ => ⟨fun _ => 0, 0⟩,
            fun p => if p = MPath.other 0 then some 0 else some 200,
            fun _ => true, fun _ => none⟩ idSchedule).sequence
        = [MPath.other 1, MPath.other 0] ∧
      ({ antistrobe_enabled := false } :
          SplicerConfig).antistrobe_delta_threshold
        < |(((fun p => if p = MPath.other 0 then some 0 else some 200)
              (MPath.other 1) : Option ℚ)).getD 128
          - (((fun p => if p = MPath.other 0 then some 0 else some 200)
              (MPath.other 0) : Option ℚ)).getD 128| ∧
      (assembleRun
          [⟨MPath.other 10, 0, 3, MPath.other 0, 0⟩,
            ⟨MPath.other 10, 3, 3, MPath.other 1, 1⟩] 0
          { antistrobe_enabled := false } ⟨fun _ => 0, 0⟩
          ⟨fun _ => true, fun _ => 10, fun _ => ⟨fun _ => 0, 0⟩,
            fun p => if p = MPath.other 0 then some 0 else some 200,
            fun _ => true, fun _ => none⟩ idSchedule).lumaFlags = [] := by
  refine ⟨by norm_num, by rfl, ?_, by rfl⟩
  show (80:ℚ) < |(some (200:ℚ)).getD 128 - (some (0:ℚ)).getD 128|
  norm_num

/-- Claim C3 (amended): whenever anti-strobe processing is enabled and the
configured luma-delta threshold is positive, the safety pass runs after
concatenation regardless of whether luma normalization ran (the strength
setting is unconstrained here): its flags are exactly those of the adjacent
pairs of the final sequence whose cached-luma delta strictly exceeds the
threshold, each recorded as `{position, delta, threshold}`; a pair at or
below the threshold is never flagged; a nonpositive threshold disables the
pass entirely, and the pass never fails the run. -/
theorem lumaDelta_pass_spec (chunks : List ChunkInfo) (numImages : Nat)
    (cfg : SplicerConfig) (r : Rng) (O : Oracles) (S : Schedule)
    (hen : cfg.antistrobe_enabled = true) :
    (0 < cfg.antistrobe_delta_threshold →
      (assembleRun chunks numImages cfg r O S).lumaFlags
          = (List.range
              ((assembleRun chunks numImages cfg r O S).sequence.length - 1)
              ).filterMap (fun i =>
              if cfg.antistrobe_delta_threshold
                  < |((assembleRun chunks numImages cfg r O S).cacheFinal
                      ((assembleRun chunks numImages cfg r O S).sequence.getD
                        i default)).getD 128
                    - ((assembleRun chunks numImages cfg r O S).cacheFinal
                      ((assembleRun chunks numImages cfg r O S).sequence.getD
                        (i + 1) default)).getD 128| then
                some ⟨i,
                  |((assembleRun chunks numImages cfg r O S).cacheFinal
                      ((assembleRun chunks numImages cfg r O S).sequence.getD
                        i default)).getD 128
                    - ((assembleRun chunks numImages cfg r O S).cacheFinal
                      ((assembleRun chunks numImages cfg r O S).sequence.getD
                        (i + 1) default)).getD 128|,
                  cfg.antistrobe_delta_threshold⟩
              else none) ∧
      (∀ i, i + 1 < (assembleRun chunks numImages cfg r O S).sequence.length →
        ((∃ d, (⟨i, d, cfg.antistrobe_delta_threshold⟩ : LumaFlag)
            ∈ (assembleRun chunks numImages cfg r O S).lumaFlags ∧
          d = |((assembleRun chunks numImages cfg r O S).cacheFinal
              ((assembleRun chunks numImages cfg r O S).sequence.getD i
                default)).getD 128
            - ((assembleRun chunks numImages cfg r O S).cacheFinal
              ((assembleRun chunks numImages cfg r O S).sequence.getD (i + 1)
                default)).getD 128|) ↔
          cfg.antistrobe_delta_threshold
            < |((assembleRun chunks numImages cfg r O S).cacheFinal
                ((assembleRun chunks numImages cfg r O S).sequence.getD i
                  default)).getD 128
              - ((assembleRun chunks numImages cfg r O S).cacheFinal
                ((assembleRun chunks numImages cfg r O S).sequence.getD (i + 1)
                  default)).getD 128|))) ∧
    (cfg.antistrobe_delta_threshold ≤ 0 →
      (assembleRun chunks numImages cfg r O S).lumaFlags = []) := by
  obtain ⟨hflags, hcache⟩ :=
    assembleRun_delta_proj chunks numImages cfg r O S hen
  constructor
  · intro ht
    have hrun := lumaDeltaRun_of_pos
      (assembleRun chunks numImages cfg r O S).sequence cfg O.mlProbe (S 4)
      (assembleRun chunks numImages cfg r O S).lumaCache ht
    have heq : (assembleRun chunks numImages cfg r O S).lumaFlags
        = (List.range
            ((assembleRun chunks numImages cfg r O S).sequence.length - 1)
            ).filterMap (fun i =>
            if cfg.antistrobe_delta_threshold
                < |((assembleRun chunks numImages cfg r O S).cacheFinal
                    ((assembleRun chunks numImages cfg r O S).sequence.getD
                      i default)).getD 128
                  - ((assembleRun chunks numImages cfg r O S).cacheFinal
                    ((assembleRun chunks numImages cfg r O S).sequence.getD
                      (i + 1) default)).getD 128| then
              some ⟨i,
                |((assembleRun chunks numImages cfg r O S).cacheFinal
                    ((assembleRun chunks numImages cfg r O S).sequence.getD
                      i default)).getD 128
                  - ((assembleRun chunks numImages cfg r O S).cacheFinal
                    ((assembleRun chunks numImages cfg r O S).sequence.getD
                      (i + 1) default)).getD 128|,
                cfg.antistrobe_delta_threshold⟩
            else none) := by
      rw [hflags, hrun, hcache, hrun]
    refine ⟨heq, ?_⟩
    intro i hi
    rw [heq]
    constructor
    · rintro ⟨d, hmem, hd⟩
      obtain ⟨j, _, hj⟩ := List.mem_filterMap.mp hmem
      by_cases hcond : cfg.antistrobe_delta_threshold
          < |((assembleRun chunks numImages cfg r O S).cacheFinal
              ((assembleRun chunks numImages cfg r O S).sequence.getD j
                default)).getD 128
            - ((assembleRun chunks numImages cfg r O S).cacheFinal
              ((assembleRun chunks numImages cfg r O S).sequence.getD (j + 1)
                default)).getD 128|
      · rw [if_pos hcond] at hj
        have hij := congrArg LumaFlag.position (Option.some.inj hj)
        simp only at hij
        subst hij
        have hdj := congrArg LumaFlag.delta (Option.some.inj hj)
        simp only at hdj
        rw [hd] at hdj
        rw [← hdj]
        exact hcond
      · rw [if_neg hcond] at hj
        exact absurd hj (by simp)
    · intro hcond
      refine ⟨_, List.mem_filterMap.mpr ⟨i, ?_, ?_⟩, rfl⟩
      · exact List.mem_range.mpr (by omega)
      · rw [if_pos hcond]
  · intro ht
    rw [hflags, lumaDeltaRun_of_nonpos _ _ _ _ _ ht]

/-- Witness for C3's amended theorem: the default configuration (anti-strobe
enabled, threshold 80) on an empty run — the pass runs and its flag list is
exactly the (empty) filter of adjacent pairs. -/
theorem lumaDelta_pass_spec_witness :
    ({} : SplicerConfig).antistrobe_enabled = true ∧
      (0:ℚ) < ({} : SplicerConfig).antistrobe_delta_threshold ∧
      (assembleRun [] 0 {} ⟨fun _ => 0, 0⟩
          ⟨fun _ => true, fun _ => 10, fun _ => ⟨fun _ => 0, 0⟩,
            fun _ => some 128, fun _ => true, fun _ => none⟩
          idSchedule).lumaFlags
        = (List.range ((assembleRun [] 0 {} ⟨fun _ => 0, 0⟩
            ⟨fun _ => true, fun _ => 10, fun _ => ⟨fun _ => 0, 0⟩,
              fun _ => some 128, fun _ => true, fun _ => none⟩
            idSchedule).sequence.length - 1)).filterMap (fun i =>
            if ({} : SplicerConfig).antistrobe_delta_threshold
                < |((assembleRun [] 0 {} ⟨fun _ => 0, 0⟩
                    ⟨fun _ => true, fun _ => 10, fun _ => ⟨fun _ => 0, 0⟩,
                      fun _ => some 128, fun _ => true, fun _ => none⟩
                    idSchedule).cacheFinal
                    ((assembleRun [] 0 {} ⟨fun _ => 0, 0⟩
                      ⟨fun _ => true, fun _ => 10, fun _ => ⟨fun _ => 0, 0⟩,
                        fun _ => some 128, fun _ => true, fun _ => none⟩
                      idSchedule).sequence.getD i default)).getD 128
                  - ((assembleRun [] 0 {} ⟨fun _ => 0, 0⟩
                    ⟨fun _ => true, fun _ => 10, fun _ => ⟨fun _ => 0, 0⟩,
                      fun _ => some 128, fun _ => true, fun _ => none⟩
                    idSchedule).cacheFinal
                    ((assembleRun [] 0 {} ⟨fun _ => 0, 0⟩
                      ⟨fun _ => true, fun _ => 10, fun _ => ⟨fun _ => 0, 0⟩,
                        fun _ => some 128, fun _ => true, fun _ => none⟩
                      idSchedule).sequence.getD (i + 1) default)).getD 128|
              then some ⟨i,
                |((assembleRun [] 0 {} ⟨fun _ => 0, 0⟩
                    ⟨fun _ => true, fun _ => 10, fun _ => ⟨fun _ => 0, 0⟩,
                      fun _ => some 128, fun _ => true, fun _ => none⟩
                    idSchedule).cacheFinal
                    ((assembleRun [] 0 {} ⟨fun _ => 0, 0⟩
                      ⟨fun _ => true, fun _ => 10, fun _ => ⟨fun _ => 0, 0⟩,
                        fun _ => some 128, fun _ => true, fun _ => none⟩
                      idSchedule).sequence.getD i default)).getD 128
                  - ((assembleRun [] 0 {} ⟨fun _ => 0, 0⟩
                    ⟨fun _ => true, fun _ => 10, fun _ => ⟨fun _ => 0, 0⟩,
                      fun _ => some 128, fun _ => true, fun _ => none⟩
                    idSchedule).cacheFinal
                    ((assembleRun [] 0 {} ⟨fun _ => 0, 0⟩
                      ⟨fun _ => true, fun _ => 10, fun _ => ⟨fun _ => 0, 0⟩,
                        fun _ => some 128, fun _ => true, fun _ => none⟩
                      idSchedule).sequence.getD (i + 1) default)).getD 128|,
                ({} : SplicerConfig).antistrobe_delta_threshold⟩
              else none) :=
  ⟨rfl, by norm_num,
    ((lumaDelta_pass_spec [] 0 {} ⟨fun _ => 0, 0⟩
        ⟨fun _ => true, fun _ => 10, fun _ => ⟨fun _ => 0, 0⟩,
          fun _ => some 128, fun _ => true, fun _ => none⟩
        idSchedule rfl).1 (by norm_num)).1⟩

/-! ## Coordinator collection: sorting by submission index recovers
submission order -/

instance {α : Type} : IsTotal (Nat × α) (fun a b => a.1 ≤ b.1) :=
  ⟨fun a b => Nat.le_total a.1 b.1⟩

instance {α : Type} : IsTrans (Nat × α) (fun a b => a.1 ≤ b.1) :=
  ⟨fun _ _ _ h1 h2 => le_trans h1 h2⟩

instance {α : Type} : IsAntisymm (Nat × α) (fun a b => a.1 < b.1) :=
  ⟨fun _ _ h1 h2 => absurd (lt_trans h1 h2) (lt_irrefl _)⟩

lemma sorted_lt_enum {α : Type} (l : List α) :
    (l.enum).Sorted (fun a b : Nat × α => a.1 < b.1) := by
  rw [List.Sorted, List.pairwise_iff_getElem]
  intro i j hi hj hij
  simp only [List.getElem_enum]
  exact hij

lemma sortByIdx_enum_recover {α : Type} {o : OrdF} (ho : ValidOrd o)
    (l : List α) (d : Nat × α) :
    sortByIdx (collect o l.enum d) = l.enum := by
  have hperm : (sortByIdx (collect o l.enum d)).Perm l.enum :=
    (List.perm_insertionSort _ _).trans (collect_perm ho _ _)
  have hnd : ((sortByIdx (collect o l.enum d)).map Prod.fst).Nodup :=
    (List.Perm.nodup_iff (hperm.map Prod.fst)).mpr (List.nodup_enum_map_fst l)
  have hsortedlt : (sortByIdx (collect o l.enum d)).Sorted
      (fun a b : Nat × α => a.1 < b.1) := by
    have hle : (sortByIdx (collect o l.enum d)).Sorted
        (fun a b : Nat × α => a.1 ≤ b.1) :=
      List.sorted_insertionSort _ _
    have hne : (sortByIdx (collect o l.enum d)).Pairwise
        (fun a b : Nat × α => a.1 ≠ b.1) :=
      List.pairwise_map.mp hnd
    exact (hle.and hne).imp (fun h => lt_of_le_of_ne h.1 h.2)
  exact List.eq_of_perm_of_sorted hperm hsortedlt (sorted_lt_enum l)

/-- Phase-1 collection delivers the surviving normalized videos in original
submission order, whatever the completion order was. -/
lemma normalizedOf_eq {o : OrdF} (ho : ValidOrd o) (numVideos : Nat)
    (O : Oracles) :
    normalizedOf numVideos O o = (normResults numVideos O).filterMap id := by
  unfold normalizedOf
  rw [sortByIdx_enum_recover ho]
  rw [show (normResults numVideos O).enum.filterMap Prod.snd
      = ((normResults numVideos O).enum.map Prod.snd).filterMap id by
    rw [List.filterMap_map]; rfl]
  rw [List.enum_map_snd]

/-- Canonical phase-2 result: per-video chunk lists concatenated in
submission order, chunk indices reassigned sequentially. -/
def allChunksCanon (jobs : List (List ChunkInfo)) : List ChunkInfo :=
  (jobs.flatten).enum.map (fun e => { e.2 with chunk_index := e.1 })

/-- Phase-2 collection and re-indexing is completion-order independent. -/
lemma allChunksOf_eq {o : OrdF} (ho : ValidOrd o)
    (jobs : List (List ChunkInfo)) : allChunksOf jobs o = allChunksCanon jobs := by
  unfold allChunksOf allChunksCanon
  rw [sortByIdx_enum_recover ho, List.enum_map_snd]

/-! ## Keyed cache writes are completion-order independent -/

lemma dictFold_lookup_nodup {β : Type} (l : List (MPath × β))
    (hnd : (l.map Prod.fst).Nodup) (c : MPath → Option β) (k : MPath) :
    dictFold l c k = match l.find? (fun e => e.1 = k) with
      | some e => some e.2
      | none => c k := by
  induction l generalizing c with
  | nil => rfl
  | cons e tl ih =>
    have hhead : e.1 ∉ tl.map Prod.fst := (List.nodup_cons.mp hnd).1
    have htl : (tl.map Prod.fst).Nodup := (List.nodup_cons.mp hnd).2
    have hstep : dictFold (e :: tl) c = dictFold tl (updFn c e.1 e.2) := rfl
    rw [hstep, ih htl]
    by_cases hk : e.1 = k
    · rw [List.find?_cons_of_pos _ (by simp [hk])]
      have hkn : tl.find? (fun x => x.1 = k) = none := by
        rw [List.find?_eq_none]
        intro x hx
        simp only [decide_eq_true_eq]
        intro hxk
        exact hhead (List.mem_map.mpr ⟨x, hx, by rw [hxk, hk]⟩)
      rw [hkn]
      simp [updFn, hk]
    · rw [List.find?_cons_of_neg _ (by simp [hk])]
      cases hf : tl.find? (fun x => x.1 = k) with
      | none =>
        simp only [hf, updFn]
        rw [if_neg (fun h => hk (h.symm))]
      | some a => simp [hf]

lemma find?_unique_of_perm {α : Type} {p : α → Bool} {l l' : List α}
    (hp : l.Perm l')
    (hu : ∀ a ∈ l, ∀ b ∈ l, p a = true → p b = true → a = b) :
    l.find? p = l'.find? p := by
  cases h : l.find? p with
  | none =>
    rw [List.find?_eq_none] at h
    symm
    rw [List.find?_eq_none]
    intro x hx
    exact h x (hp.mem_iff.mpr hx)
  | some a =>
    have ha : a ∈ l := List.mem_of_find?_eq_some h
    have hpa : p a = true := List.find?_some h
    cases h' : l'.find? p with
    | none =>
      rw [List.find?_eq_none] at h'
      exact absurd hpa (h' a (hp.mem_iff.mp ha))
    | some b =>
      have hb : b ∈ l := hp.mem_iff.mpr (List.mem_of_find?_eq_some h')
      rw [hu a ha b hb hpa (List.find?_some h')]

lemma dictFold_perm_nodup {β : Type} {l l' : List (MPath × β)}
    (hp : l.Perm l') (hnd : (l.map Prod.fst).Nodup) (c : MPath → Option β) :
    dictFold l c = dictFold l' c := by
  funext k
  have hnd' : (l'.map Prod.fst).Nodup :=
    (List.Perm.nodup_iff (hp.map Prod.fst)).mp hnd
  have hpw : l.Pairwise (fun a b : MPath × β => a.1 ≠ b.1) :=
    List.pairwise_map.mp hnd
  have hu : ∀ a ∈ l, ∀ b ∈ l, (fun e : MPath × β => decide (e.1 = k)) a = true
      → (fun e : MPath × β => decide (e.1 = k)) b = true → a = b := by
    intro a ha b hb hak hbk
    simp only [decide_eq_true_eq] at hak hbk
    by_contra hne
    exact absurd (hak.trans hbk.symm)
      (List.Pairwise.forall (fun _ _ h => Ne.symm h) hpw ha hb hne)
  rw [dictFold_lookup_nodup l hnd c k, dictFold_lookup_nodup l' hnd' c k,
    find?_unique_of_perm hp hu]

lemma probeLumaInto_ord_irrel (mlProbe : MPath → Option ℚ) {o₁ o₂ : OrdF}
    (h1 : ValidOrd o₁) (h2 : ValidOrd o₂) (paths : List MPath)
    (cache : MPath → Option ℚ) :
    probeLumaInto mlProbe o₁ paths cache
      = probeLumaInto mlProbe o₂ paths cache := by
  funext k
  rw [probeLumaInto_lookup mlProbe h1, probeLumaInto_lookup mlProbe h2]

lemma map_out_filterMap_opt (l : List (MPath × Option MPath × ℚ)) :
    ((l.filterMap (fun e => e.2.1.map (fun p2 => (e.1, p2, e.2.2)))).map
      (fun x => x.2.1)) = l.filterMap (fun e => e.2.1) := by
  induction l with
  | nil => rfl
  | cons e tl ih =>
    cases h : e.2.1 with
    | none => simp [h, ih]
    | some a => simp [h, ih]

lemma filterMap_ite_sublist {α β : Type} (l : List α) (P : α → Prop)
    [DecidablePred P] (m : α → β) :
    (l.filterMap (fun x => if P x then some (m x) else none)).Sublist
      (l.map m) := by
  induction l with
  | nil => simp
  | cons x tl ih =>
    by_cases h : P x
    · simpa [h] using List.Sublist.cons₂ (m x) ih
    · simpa [h] using ih.cons (m x)

/-- The adjusted-variant paths written by a run are pairwise distinct
(`lnorm_{i}.mp4`, one per successful job index). -/
lemma nodup_completed_out (seq : List MPath) (cfg : SplicerConfig)
    (mlProbe : MPath → Option ℚ) (encOk : Nat → Bool) (oProbe : OrdF)
    {oEnc : OrdF} (hoE : ValidOrd oEnc) :
    ((lumaCompleted seq cfg mlProbe encOk oProbe oEnc).map
      (fun e => e.2.1)).Nodup := by
  unfold lumaCompleted
  have hperm := (collect_perm hoE (lumaResults seq cfg mlProbe encOk oProbe)
    (default, none, 0)).filterMap
    (fun e => e.2.1.map (fun p2 => (e.1, p2, e.2.2)))
  rw [List.Perm.nodup_iff (hperm.map (fun e => e.2.1))]
  rw [map_out_filterMap_opt]
  unfold lumaResults
  rw [List.filterMap_map]
  rw [show ((fun e : MPath × Option MPath × ℚ => e.2.1) ∘
      (fun e : Nat × MPath × ℚ =>
        if encOk e.1 then
          (e.2.1, some (MPath.lnorm e.1),
            ((lumaCache1 seq mlProbe oProbe) e.2.1).getD 128
              + e.2.2 * cfg.antistrobe_luma_strength)
        else (e.2.1, none, e.2.2)))
      = fun e : Nat × MPath × ℚ =>
          if encOk e.1 = true then some (MPath.lnorm e.1) else none by
    funext e
    by_cases h : encOk e.1 <;> simp [h, Function.comp]]
  refine (filterMap_ite_sublist _ _ _).nodup ?_
  rw [show (((encodeJobsOf seq (lumaCache1 seq mlProbe oProbe)
        (globalMeanOf seq (lumaCache1 seq mlProbe oProbe))).enum).map
          (fun e => MPath.lnorm e.1))
      = (((encodeJobsOf seq (lumaCache1 seq mlProbe oProbe)
          (globalMeanOf seq (lumaCache1 seq mlProbe oProbe))).enum).map
            Prod.fst).map MPath.lnorm by
    rw [List.map_map]; rfl]
  exact (List.nodup_enum_map_fst _).map (fun a b h => by injection h)

/-- The observable outputs of `_luma_normalize` do not depend on the
completion order of its two worker pools (only the insertion order of the
norm cache does, and that is observed through lookups alone). -/
lemma lumaNormalize_ord_irrel (seq : List MPath) (cfg : SplicerConfig)
    (mlProbe : MPath → Option ℚ) (encOk : Nat → Bool) {op₁ oe₁ op₂ oe₂ : OrdF}
    (hp₁ : ValidOrd op₁) (he₁ : ValidOrd oe₁) (hp₂ : ValidOrd op₂)
    (he₂ : ValidOrd oe₂) :
    (lumaNormalize seq cfg mlProbe encOk op₁ oe₁).sequence
        = (lumaNormalize seq cfg mlProbe encOk op₂ oe₂).sequence ∧
      (lumaNormalize seq cfg mlProbe encOk op₁ oe₁).cache
        = (lumaNormalize seq cfg mlProbe encOk op₂ oe₂).cache ∧
      (lumaNormalize seq cfg mlProbe encOk op₁ oe₁).requests
        = (lumaNormalize seq cfg mlProbe encOk op₂ oe₂).requests ∧
      (lumaNormalize seq cfg mlProbe encOk op₁ oe₁).normPairs.Perm
        (lumaNormalize seq cfg mlProbe encOk op₂ oe₂).normPairs := by
  have hc1 : lumaCache1 seq mlProbe op₁ = lumaCache1 seq mlProbe op₂ := by
    unfold lumaCache1
    exact probeLumaInto_ord_irrel mlProbe hp₁ hp₂ _ _
  by_cases hs : cfg.antistrobe_luma_strength ≤ 0
  · unfold lumaNormalize
    rw [if_pos hs, if_pos hs]
    exact ⟨rfl, rfl, rfl, List.Perm.refl _⟩
  · by_cases hne : (uniquePaths seq).isEmpty
    · unfold lumaNormalize
      rw [if_neg hs, if_neg hs, if_pos hne, if_pos hne]
      exact ⟨rfl, by simp only; rw [hc1], rfl, List.Perm.refl _⟩
    · have hres : lumaResults seq cfg mlProbe encOk op₁
          = lumaResults seq cfg mlProbe encOk op₂ := by
        unfold lumaResults
        rw [hc1]
      have hcperm : (lumaCompleted seq cfg mlProbe encOk op₁ oe₁).Perm
          (lumaCompleted seq cfg mlProbe encOk op₂ oe₂) := by
        unfold lumaCompleted
        refine ((collect_perm he₁ _ _).filterMap _).trans ?_
        rw [hres]
        exact ((collect_perm he₂ _ _).filterMap _).symm
      have hnp : (lumaNormalize seq cfg mlProbe encOk op₁ oe₁).normPairs.Perm
          (lumaNormalize seq cfg mlProbe encOk op₂ oe₂).normPairs := by
        rw [lumaNormalize_normPairs_eq seq cfg mlProbe encOk op₁ oe₁ hs hne,
          lumaNormalize_normPairs_eq seq cfg mlProbe encOk op₂ oe₂ hs hne]
        exact hcperm.map _
      have hndk : (((lumaNormalize seq cfg mlProbe encOk op₁
          oe₁).normPairs).map Prod.fst).Nodup := by
        rw [lumaNormalize_normPairs_eq seq cfg mlProbe encOk op₁ oe₁ hs hne,
          List.map_map]
        have h1 := nodup_completed_keys seq cfg mlProbe encOk op₁ he₁
        rw [show (Prod.fst ∘ (fun e : MPath × MPath × ℚ => (e.1, e.2.1)))
            = (fun e : MPath × MPath × ℚ => e.1) from rfl]
        exact h1
      have hfn : dictFold (lumaNormalize seq cfg mlProbe encOk op₁
            oe₁).normPairs (fun _ => none)
          = dictFold (lumaNormalize seq cfg mlProbe encOk op₂
            oe₂).normPairs (fun _ => none) :=
        dictFold_perm_nodup hnp hndk _
      refine ⟨?_, ?_, ?_, hnp⟩
      · rw [lumaNormalize_sequence seq cfg mlProbe encOk op₁ oe₁,
          lumaNormalize_sequence seq cfg mlProbe encOk op₂ oe₂, hfn]
      · rw [lumaNormalize_cache_eq seq cfg mlProbe encOk op₁ oe₁ hs hne,
          lumaNormalize_cache_eq seq cfg mlProbe encOk op₂ oe₂ hs hne]
        have hwperm : ((lumaCompleted seq cfg mlProbe encOk op₁ oe₁).map
            (fun e => (e.2.1, e.2.2))).Perm
            ((lumaCompleted seq cfg mlProbe encOk op₂ oe₂).map
              (fun e => (e.2.1, e.2.2))) := hcperm.map _
        have hwnd : (((lumaCompleted seq cfg mlProbe encOk op₁ oe₁).map
            (fun e => (e.2.1, e.2.2))).map Prod.fst).Nodup := by
          rw [List.map_map]
          rw [show (Prod.fst ∘ (fun e : MPath × MPath × ℚ => (e.2.1, e.2.2)))
              = (fun e : MPath × MPath × ℚ => e.2.1) from rfl]
          exact nodup_completed_out seq cfg mlProbe encOk op₁ he₁
        rw [dictFold_perm_nodup hwperm hwnd _, hc1]
      · rw [lumaNormalize_requests_eq seq cfg mlProbe encOk op₁ oe₁ hs hne,
          lumaNormalize_requests_eq seq cfg mlProbe encOk op₂ oe₂ hs hne, hc1]

/-! ## Assembly is schedule-independent in all observable outputs -/

lemma assembleRun_shuffled_proj (chunks : List ChunkInfo) (numImages : Nat)
    (cfg : SplicerConfig) (r : Rng) (O : Oracles) (S : Schedule) :
    (assembleRun chunks numImages cfg r O S).shuffled
      = (preAssemble chunks numImages cfg r).shuffled := rfl

lemma assembleRun_imageEntries_proj (chunks : List ChunkInfo) (numImages : Nat)
    (cfg : SplicerConfig) (r : Rng) (O : Oracles) (S : Schedule) :
    (assembleRun chunks numImages cfg r O S).imageEntries
      = (preAssemble chunks numImages cfg r).imageEntries := rfl

lemma assembleRun_sequence_proj (chunks : List ChunkInfo) (numImages : Nat)
    (cfg : SplicerConfig) (r : Rng) (O : Oracles) (S : Schedule) :
    (assembleRun chunks numImages cfg r O S).sequence
      = (assembleLN chunks numImages cfg r O S).sequence := rfl

lemma assembleRun_lumaCache_proj (chunks : List ChunkInfo) (numImages : Nat)
    (cfg : SplicerConfig) (r : Rng) (O : Oracles) (S : Schedule) :
    (assembleRun chunks numImages cfg r O S).lumaCache
      = (assembleLN chunks numImages cfg r O S).cache := rfl

lemma assembleRun_expected_proj (chunks : List ChunkInfo) (numImages : Nat)
    (cfg : SplicerConfig) (r : Rng) (O : Oracles) (S : Schedule) :
    (assembleRun chunks numImages cfg r O S).expectedFrames
      = countExpectedFrames (assembleLN chunks numImages cfg r O S).sequence
          (chunkFrameMapOf chunks)
          (dictFold (preAssemble chunks numImages cfg r).imageSegments
            (fun _ => none))
          (dictFold (normFramePairs (chunkFrameMapOf chunks)
            (dictFold (preAssemble chunks numImages cfg r).imageSegments
              (fun _ => none))
            (assembleLN chunks numImages cfg r O S).normPairs) (fun _ => none))
          (bufferPathOf cfg) cfg O.probeFB := rfl

lemma assembleRun_flags_disabled (chunks : List ChunkInfo) (numImages : Nat)
    (cfg : SplicerConfig) (r : Rng) (O : Oracles) (S : Schedule)
    (hen : cfg.antistrobe_enabled = false) :
    (assembleRun chunks numImages cfg r O S).lumaFlags = [] := by
  simp only [assembleRun, hen]
  rfl

lemma lumaDeltaRun_ord_irrel (seq : List MPath) (cfg : SplicerConfig)
    (mlProbe : MPath → Option ℚ) (cache : MPath → Option ℚ) {o₁ o₂ : OrdF}
    (h1 : ValidOrd o₁) (h2 : ValidOrd o₂) :
    lumaDeltaRun seq cfg mlProbe o₁ cache
      = lumaDeltaRun seq cfg mlProbe o₂ cache := by
  by_cases ht : cfg.antistrobe_delta_threshold ≤ 0
  · rw [lumaDeltaRun_of_nonpos _ _ _ _ _ ht, lumaDeltaRun_of_nonpos _ _ _ _ _ ht]
  · rw [lumaDeltaRun_of_pos _ _ _ _ _ (not_le.mp ht),
      lumaDeltaRun_of_pos _ _ _ _ _ (not_le.mp ht),
      probeLumaInto_ord_irrel mlProbe h1 h2]

lemma map_fst_filterMap_sub {α γ : Type} (l : List α)
    (F : α → Option (MPath × γ)) (m : α → MPath)
    (hF : ∀ a x, F a = some x → x.1 = m a) :
    ((l.filterMap F).map Prod.fst).Sublist (l.map m) := by
  induction l with
  | nil => simp
  | cons a tl ih =>
    cases h : F a with
    | none => simpa [h] using ih.cons (m a)
    | some x =>
      have hx := hF a x h
      simpa [h, hx] using List.Sublist.cons₂ (m a) ih

lemma normFramePairs_keys_sublist (cm im : MPath → Option Nat)
    (np : List (MPath × MPath)) :
    ((normFramePairs cm im np).map Prod.fst).Sublist
      (np.map (fun pr => pr.2)) := by
  unfold normFramePairs
  refine map_fst_filterMap_sub np _ _ ?_
  intro a x h
  cases hc : cm a.1 with
  | some n =>
    rw [hc] at h
    exact (congrArg Prod.fst (Option.some.inj h)).symm
  | none =>
    rw [hc] at h
    cases hi : im a.1 with
    | some n =>
      rw [hi] at h
      exact (congrArg Prod.fst (Option.some.inj h)).symm
    | none =>
      rw [hi] at h
      exact absurd h (by simp)

lemma lumaNormalize_outkeys_nodup (seq : List MPath) (cfg : SplicerConfig)
    (mlProbe : MPath → Option ℚ) (encOk : Nat → Bool) (op : OrdF)
    {oe : OrdF} (hoe : ValidOrd oe) :
    (((lumaNormalize seq cfg mlProbe encOk op oe).normPairs).map
      (fun pr => pr.2)).Nodup := by
  by_cases hs : cfg.antistrobe_luma_strength ≤ 0
  · unfold lumaNormalize
    rw [if_pos hs]
    simp
  · by_cases hne : (uniquePaths seq).isEmpty
    · unfold lumaNormalize
      rw [if_neg hs, if_pos hne]
      simp
    · rw [lumaNormalize_normPairs_eq seq cfg mlProbe encOk op oe hs hne,
        List.map_map]
      rw [show ((fun pr : MPath × MPath => pr.2) ∘
          (fun e : MPath × MPath × ℚ => (e.1, e.2.1)))
          = (fun e : MPath × MPath × ℚ => e.2.1) from rfl]
      exact nodup_completed_out seq cfg mlProbe encOk op hoe

lemma assembleLN_ord_irrel (chunks : List ChunkInfo) (numImages : Nat)
    (cfg : SplicerConfig) (r : Rng) (O : Oracles) {S₁ S₂ : Schedule}
    (h₁ : ValidSchedule S₁) (h₂ : ValidSchedule S₂) :
    (assembleLN chunks numImages cfg r O S₁).sequence
        = (assembleLN chunks numImages cfg r O S₂).sequence ∧
      (assembleLN chunks numImages cfg r O S₁).cache
        = (assembleLN chunks numImages cfg r O S₂).cache ∧
      (assembleLN chunks numImages cfg r O S₁).normPairs.Perm
        (assembleLN chunks numImages cfg r O S₂).normPairs ∧
      (((assembleLN chunks numImages cfg r O S₁).normPairs).map
        (fun pr => pr.2)).Nodup := by
  unfold assembleLN
  by_cases hcond : cfg.antistrobe_enabled = true
      ∧ 0 < cfg.antistrobe_luma_strength
  · rw [if_pos hcond, if_pos hcond]
    obtain ⟨hseq, hcache, _, hperm⟩ := lumaNormalize_ord_irrel
      (preAssemble chunks numImages cfg r).seqBuf cfg O.mlProbe O.encOk
      (h₁ 2) (h₁ 3) (h₂ 2) (h₂ 3)
    exact ⟨hseq, hcache, hperm,
      lumaNormalize_outkeys_nodup _ cfg O.mlProbe O.encOk (S₁ 2) (h₁ 3)⟩
  · rw [if_neg hcond, if_neg hcond]
    exact ⟨rfl, rfl, List.Perm.refl _, by simp⟩

/-- All the run data of `assemble` that reaches the manifest is independent
of worker-pool completion orders. -/
lemma assembleRun_sched_irrel (chunks : List ChunkInfo) (numImages : Nat)
    (cfg : SplicerConfig) (r : Rng) (O : Oracles) {S₁ S₂ : Schedule}
    (h₁ : ValidSchedule S₁) (h₂ : ValidSchedule S₂) :
    (assembleRun chunks numImages cfg r O S₁).shuffled
        = (assembleRun chunks numImages cfg r O S₂).shuffled ∧
      (assembleRun chunks numImages cfg r O S₁).imageEntries
        = (assembleRun chunks numImages cfg r O S₂).imageEntries ∧
      (assembleRun chunks numImages cfg r O S₁).sequence
        = (assembleRun chunks numImages cfg r O S₂).sequence ∧
      (assembleRun chunks numImages cfg r O S₁).expectedFrames
        = (assembleRun chunks numImages cfg r O S₂).expectedFrames ∧
      (assembleRun chunks numImages cfg r O S₁).lumaFlags
        = (assembleRun chunks numImages cfg r O S₂).lumaFlags := by
  obtain ⟨hseq, hcache, hperm, hnod⟩ :=
    assembleLN_ord_irrel chunks numImages cfg r O h₁ h₂
  have hnfm : dictFold (normFramePairs (chunkFrameMapOf chunks)
        (dictFold (preAssemble chunks numImages cfg r).imageSegments
          (fun _ => none))
        (assembleLN chunks numImages cfg r O S₁).normPairs) (fun _ => none)
      = dictFold (normFramePairs (chunkFrameMapOf chunks)
        (dictFold (preAssemble chunks numImages cfg r).imageSegments
          (fun _ => none))
        (assembleLN chunks numImages cfg r O S₂).normPairs)
        (fun _ => none) := by
    refine dictFold_perm_nodup (hperm.filterMap _) ?_ _
    exact (normFramePairs_keys_sublist _ _ _).nodup hnod
  refine ⟨rfl, rfl, ?_, ?_, ?_⟩
  · rw [assembleRun_sequence_proj, assembleRun_sequence_proj, hseq]
  · rw [assembleRun_expected_proj, assembleRun_expected_proj, hseq, hnfm]
  · by_cases hen : cfg.antistrobe_enabled = true
    · rw [(assembleRun_delta_proj chunks numImages cfg r O S₁ hen).1,
        (assembleRun_delta_proj chunks numImages cfg r O S₂ hen).1,
        assembleRun_sequence_proj, assembleRun_sequence_proj, hseq,
        assembleRun_lumaCache_proj, assembleRun_lumaCache_proj, hcache,
        lumaDeltaRun_ord_irrel _ cfg O.mlProbe _ (h₁ 4) (h₂ 4)]
    · have hf : cfg.antistrobe_enabled = false := by
        cases h : cfg.antistrobe_enabled
        · rfl
        · exact absurd h hen
      rw [assembleRun_flags_disabled chunks numImages cfg r O S₁ hf,
        assembleRun_flags_disabled chunks numImages cfg r O S₂ hf]

/-! ## Pre-dispatch sub-seed draws -/

lemma drawSeeds_spec : ∀ (n : Nat) (r : Rng),
    (drawSeeds r n).1.length = n ∧
      (drawSeeds r n).2.idx = r.idx + n ∧
      (drawSeeds r n).1 = (List.range n).map
        (fun i => r.stream (r.idx + i) % 2 ^ 31) := by
  intro n
  induction n with
  | zero => intro r; exact ⟨rfl, rfl, rfl⟩
  | succ m ih =>
    intro r
    obtain ⟨hlen, hidx, hmap⟩ := ih (r.randint 0 (2 ^ 31 - 1)).2
    refine ⟨?_, ?_, ?_⟩
    · show ((r.randint 0 (2 ^ 31 - 1)).1
          :: (drawSeeds (r.randint 0 (2 ^ 31 - 1)).2 m).1).length = m + 1
      rw [List.length_cons, hlen]
    · show (drawSeeds (r.randint 0 (2 ^ 31 - 1)).2 m).2.idx = r.idx + (m + 1)
      rw [hidx]
      show r.idx + 1 + m = r.idx + (m + 1)
      omega
    · show (r.randint 0 (2 ^ 31 - 1)).1
          :: (drawSeeds (r.randint 0 (2 ^ 31 - 1)).2 m).1
        = (List.range (m + 1)).map (fun i => r.stream (r.idx + i) % 2 ^ 31)
      rw [List.range_succ_eq_map, List.map_cons, List.map_map]
      refine List.cons_eq_cons.mpr ⟨?_, ?_⟩
      · show 0 + r.stream r.idx % (2 ^ 31 - 1 + 1 - 0)
          = r.stream (r.idx + 0) % 2 ^ 31
        norm_num
      · rw [hmap]
        refine List.map_congr_left ?_
        intro i _
        show r.stream ((r.randint 0 (2 ^ 31 - 1)).2.idx + i) % 2 ^ 31
          = r.stream (r.idx + (i + 1)) % 2 ^ 31
        have h1 : (r.randint 0 (2 ^ 31 - 1)).2.idx = r.idx + 1 := rfl
        rw [h1]
        ring_nf

/-! ## C1 — pipeline determinism and sub-seed discipline -/

lemma runPipeline_canon (numVideos numImages : Nat) (cfg : SplicerConfig)
    (r0 : Rng) (O : Oracles) (S : Schedule) (hS : ValidSchedule S) :
    runPipeline numVideos numImages cfg r0 O S
      = ⟨(drawSeeds r0 ((normResults numVideos O).filterMap id).length).1,
        allChunksCanon (chunkJobs ((normResults numVideos O).filterMap id)
          (drawSeeds r0
            ((normResults numVideos O).filterMap id).length).1 cfg O),
        (assembleRun (allChunksCanon (chunkJobs
            ((normResults numVideos O).filterMap id)
            (drawSeeds r0
              ((normResults numVideos O).filterMap id).length).1 cfg O))
          numImages cfg
          (drawSeeds r0 ((normResults numVideos O).filterMap id).length).2
          O S).shuffled,
        (assembleRun (allChunksCanon (chunkJobs
            ((normResults numVideos O).filterMap id)
            (drawSeeds r0
              ((normResults numVideos O).filterMap id).length).1 cfg O))
          numImages cfg
          (drawSeeds r0 ((normResults numVideos O).filterMap id).length).2
          O S).imageEntries,
        (assembleRun (allChunksCanon (chunkJobs
            ((normResults numVideos O).filterMap id)
            (drawSeeds r0
              ((normResults numVideos O).filterMap id).length).1 cfg O))
          numImages cfg
          (drawSeeds r0 ((normResults numVideos O).filterMap id).length).2
          O S).sequence,
        (assembleRun (allChunksCanon (chunkJobs
            ((normResults numVideos O).filterMap id)
            (drawSeeds r0
              ((normResults numVideos O).filterMap id).length).1 cfg O))
          numImages cfg
          (drawSeeds r0 ((normResults numVideos O).filterMap id).length).2
          O S).expectedFrames,
        (assembleRun (allChunksCanon (chunkJobs
            ((normResults numVideos O).filterMap id)
            (drawSeeds r0
              ((normResults numVideos O).filterMap id).length).1 cfg O))
          numImages cfg
          (drawSeeds r0 ((normResults numVideos O).filterMap id).length).2
          O S).lumaFlags⟩ := by
  simp only [runPipeline]
  rw [normalizedOf_eq (hS 0), allChunksOf_eq (hS 1)]

/-- Claim C1: for a fixed seed, input set, configuration and external-tool
behaviour, the pipeline's decision record — chunk records with reassigned
indices, shuffle order, image-insertion entries, final sequence, expected
frame count, luma flags and the sub-seed list (everything in the manifest
apart from the output checksum and the final probe) — is identical across
any two runs, whatever the completion orders of the five worker pools; and
the per-video chunking sub-seeds are drawn from the parent generator
sequentially, one per surviving normalized video, before any chunk work is
dispatched: the i-th sub-seed is the parent generator's (idx+i)-th stream
draw, a function of the parent state and survivor count alone. -/
theorem pipeline_deterministic (numVideos numImages : Nat)
    (cfg : SplicerConfig) (r0 : Rng) (O : Oracles) (S₁ S₂ : Schedule)
    (h₁ : ValidSchedule S₁) (h₂ : ValidSchedule S₂) :
    runPipeline numVideos numImages cfg r0 O S₁
        = runPipeline numVideos numImages cfg r0 O S₂ ∧
      (runPipeline numVideos numImages cfg r0 O S₁).subSeeds.length
        = ((normResults numVideos O).filterMap id).length ∧
      (runPipeline numVideos numImages cfg r0 O S₁).subSeeds
        = (List.range ((normResults numVideos O).filterMap id).length).map
            (fun i => r0.stream (r0.idx + i) % 2 ^ 31) := by
  obtain ⟨hA1, hA2, hA3, hA4, hA5⟩ := assembleRun_sched_irrel
    (allChunksCanon (chunkJobs ((normResults numVideos O).filterMap id)
      (drawSeeds r0 ((normResults numVideos O).filterMap id).length).1 cfg O))
    numImages cfg
    (drawSeeds r0 ((normResults numVideos O).filterMap id).length).2 O h₁ h₂
  refine ⟨?_, ?_, ?_⟩
  · rw [runPipeline_canon numVideos numImages cfg r0 O S₁ h₁,
      runPipeline_canon numVideos numImages cfg r0 O S₂ h₂]
    rw [PipelineOut.mk.injEq]
    exact ⟨rfl, rfl, hA1, hA2, hA3, hA4, hA5⟩
  · rw [runPipeline_canon numVideos numImages cfg r0 O S₁ h₁]
    exact (drawSeeds_spec ((normResults numVideos O).filterMap id).length
      r0).1
  · rw [runPipeline_canon numVideos numImages cfg r0 O S₁ h₁]
    exact (drawSeeds_spec ((normResults numVideos O).filterMap id).length
      r0).2.2

/-- Witness for C1: one input video that normalizes successfully, the default
configuration, and the submission-order schedule on both runs. -/
theorem pipeline_deterministic_witness :
    ValidSchedule idSchedule ∧
      (runPipeline 1 0 {} ⟨fun i => i, 0⟩
          ⟨fun _ => true, fun _ => 0, fun s => ⟨fun _ => 0, s⟩,
            fun _ => none, fun _ => true, fun _ => none⟩ idSchedule
        = runPipeline 1 0 {} ⟨fun i => i, 0⟩
          ⟨fun _ => true, fun _ => 0, fun s => ⟨fun _ => 0, s⟩,
            fun _ => none, fun _ => true, fun _ => none⟩ idSchedule) ∧
      (runPipeline 1 0 {} ⟨fun i => i, 0⟩
          ⟨fun _ => true, fun _ => 0, fun s => ⟨fun _ => 0, s⟩,
            fun _ => none, fun _ => true, fun _ => none⟩
          idSchedule).subSeeds.length
        = ((normResults 1
            ⟨fun _ => true, fun _ => 0, fun s => ⟨fun _ => 0, s⟩,
              fun _ => none, fun _ => true, fun _ => none⟩).filterMap
            id).length ∧
      (runPipeline 1 0 {} ⟨fun i => i, 0⟩
          ⟨fun _ => true, fun _ => 0, fun s => ⟨fun _ => 0, s⟩,
            fun _ => none, fun _ => true, fun _ => none⟩
          idSchedule).subSeeds
        = (List.range ((normResults 1
            ⟨fun _ => true, fun _ => 0, fun s => ⟨fun _ => 0, s⟩,
              fun _ => none, fun _ => true, fun _ => none⟩).filterMap
            id).length).map
            (fun i => (⟨fun i => i, 0⟩ : Rng).stream
              ((⟨fun i => i, 0⟩ : Rng).idx + i) % 2 ^ 31) := by
  have h := pipeline_deterministic 1 0 {} ⟨fun i => i, 0⟩
    ⟨fun _ => true, fun _ => 0, fun s => ⟨fun _ => 0, s⟩,
      fun _ => none, fun _ => true, fun _ => none⟩ idSchedule idSchedule
    validSchedule_idSchedule validSchedule_idSchedule
  exact ⟨validSchedule_idSchedule, h.1, h.2.1, h.2.2⟩

end TVMagick
